import Mathlib

/-!
Verification of the hatchet layer framework: shallow embedding of the
layer codecs (`src/layer/*`), the finalize contracts, the Internet
checksum (`src/layer/ip/mod.rs`) and the packet parser
(`src/packet/mod.rs`), together with proofs of the specified properties.

Bytes are modelled as `Nat` (well-formed buffers carry the bound `< 256`);
Rust machine integers are `Nat` with explicit `% 2^w` where wrapping or
bit-masking occurs.  Fallible operations return `Except LayerError`.
-/

namespace Hatchet

/-- Error parsing or building a layer (`src/layer/error.rs`). -/
inductive LayerError where
  | Incomplete (need : Nat)
  | Parse (detail : String)
  | Finalize (detail : String)
  | DekuError (detail : String)

deriving DecidableEq, Repr

/-- Alias so that the constructor `PacketError.LayerError` can refer to
the layer error type while sharing its Rust name. -/
abbrev LayerErr := LayerError

/-- Error parsing or generating a packet (`src/packet/error.rs`). -/
inductive PacketError where
  | Incomplete (need : Nat)
  | LayerError (e : LayerErr)

deriving DecidableEq, Repr

/-- `impl From<LayerError> for PacketError` (`src/packet/error.rs` lines 16-23). -/
def PacketError.ofLayerError : LayerErr → PacketError
  | .Incomplete size => .Incomplete size
  | e => .LayerError e

/- ## Byte-level primitives

`beBytes n v` is the big-endian `n`-byte encoding of `v` (masked to `n`
bytes, as the Rust field types guarantee); `readBE n` consumes `n` bytes
and returns the big-endian value, failing with `Incomplete` when fewer
than `n` bytes remain. -/

/-- Big-endian byte encoding, `n` bytes, least significant byte last. -/
def beBytes : Nat → Nat → List Nat
  | 0, _ => []
  | n + 1, v => beBytes n (v / 256) ++ [v % 256]

/-- Big-endian value of a byte list. -/
def beVal (l : List Nat) : Nat := l.foldl (fun a b => a * 256 + b) 0

/-- Read `n` bytes as a big-endian value. -/
def readBE (n : Nat) (bs : List Nat) : Except LayerError (Nat × List Nat) :=
  if bs.length < n then .error (.Incomplete n)
  else .ok (beVal (bs.take n), bs.drop n)

/-- Read `n` raw bytes (deku `count`-style field). -/
def readBytes (n : Nat) (bs : List Nat) : Except LayerError (List Nat × List Nat) :=
  if bs.length < n then .error (.Incomplete 1)
  else .ok (bs.take n, bs.drop n)

/- ## Internet checksum (`src/layer/ip/mod.rs` lines 16-31)

`sum` is a Rust `u32`, so every addition is reduced `% 2^32`. -/

/-- The `chunks_exact(2)` summation loop plus the odd-remainder byte. -/
def checksumLoop : Nat → List Nat → Nat
  | acc, a :: b :: rest => checksumLoop ((acc + (a * 256 + b)) % 4294967296) rest
  | acc, [a] => (acc + a * 256) % 4294967296
  | acc, [] => acc

/-- 16-bit ip checksum, translated from `checksum` in `src/layer/ip/mod.rs`. -/
def checksum (input : List Nat) : Nat :=
  let sum := checksumLoop 0 input
  let carry_add := (sum % 65536) + (sum / 65536)
  65535 - ((carry_add % 65536) + (carry_add / 65536)) % 65536

/- ## Reference checksum, from the words of spec section 4.3 -/

/-- Successive 16-bit big-endian words; an odd trailing byte is padded
with a zero low byte. Stated from the spec for the C5 comparison. -/
def specWords : List Nat → List Nat
  | a :: b :: rest => (a * 256 + b) :: specWords rest
  | [a] => [a * 256]
  | [] => []

/-- Reference Internet checksum, stated from the words of spec section 4.3:
sum the 16-bit words as 32-bit accumulators, fold the high 16 bits into
the low twice, return the complement truncated to 16 bits. -/
def checksumRef (input : List Nat) : Nat :=
  let s := (specWords input).foldl (fun acc w => (acc + w) % 4294967296) 0
  let f1 := (s % 65536) + (s / 65536)
  let f2 := ((f1 % 65536) + (f1 / 65536)) % 65536
  65535 - f2

/- ## Protocol number enums -/

/-- Ip protocols (`src/layer/ip/protocols.rs`), a `u8`-tagged sum with an
`Unknown` catch-all. -/
inductive IpProtocol where
  | HOPOPT | ICMP | IGMP | GGP | IPENCAP | ST | TCP | EGP | IGP | PUP
  | UDP | HMP | XNSIDP | RDP | ISOTP4 | DCCP | XTP | DDP | IDPRCMTP
  | IPV6 | IPV6ROUTE | IPV6FRAG | IDRP | RSVP | GRE | ESP | AH | SKIP
  | IPV6ICMP | IPV6NONXT | IPV6OPTS | RSPF | VMTP | EIGRP | OSPF | AX25
  | IPIP | ETHERIP | ENCAP | PIM | IPCOMP | VRRP | L2TP | ISIS | SCTP
  | FC | MOBILITYHEADER | UDPLITE | MPLSINIP | MANET | HIP | SHIM6
  | WESP | ROHC
  | Unknown (v : Nat)

deriving Repr

/-- Injective numbering of the `IpProtocol` constructors (unlike the wire
id `toNat`, which maps `Unknown 6` and `TCP` alike to 6), used only to
define a decidable equality whose term stays shallow. -/
def IpProtocol.encode : IpProtocol → Nat
  | .HOPOPT => 0 | .ICMP => 1 | .IGMP => 2 | .GGP => 3 | .IPENCAP => 4
  | .ST => 5 | .TCP => 6 | .EGP => 7 | .IGP => 8 | .PUP => 9 | .UDP => 10
  | .HMP => 11 | .XNSIDP => 12 | .RDP => 13 | .ISOTP4 => 14 | .DCCP => 15
  | .XTP => 16 | .DDP => 17 | .IDPRCMTP => 18 | .IPV6 => 19
  | .IPV6ROUTE => 20 | .IPV6FRAG => 21 | .IDRP => 22 | .RSVP => 23
  | .GRE => 24 | .ESP => 25 | .AH => 26 | .SKIP => 27 | .IPV6ICMP => 28
  | .IPV6NONXT => 29 | .IPV6OPTS => 30 | .RSPF => 31 | .VMTP => 32
  | .EIGRP => 33 | .OSPF => 34 | .AX25 => 35 | .IPIP => 36
  | .ETHERIP => 37 | .ENCAP => 38 | .PIM => 39 | .IPCOMP => 40
  | .VRRP => 41 | .L2TP => 42 | .ISIS => 43 | .SCTP => 44 | .FC => 45
  | .MOBILITYHEADER => 46 | .UDPLITE => 47 | .MPLSINIP => 48
  | .MANET => 49 | .HIP => 50 | .SHIM6 => 51 | .WESP => 52 | .ROHC => 53
  | .Unknown v => 54 + v

/-- The named `IpProtocol` constructors in declaration order. -/
def ipProtocolCtors : List IpProtocol :=
  [.HOPOPT, .ICMP, .IGMP, .GGP, .IPENCAP, .ST, .TCP, .EGP, .IGP, .PUP,
   .UDP, .HMP, .XNSIDP, .RDP, .ISOTP4, .DCCP, .XTP, .DDP, .IDPRCMTP,
   .IPV6, .IPV6ROUTE, .IPV6FRAG, .IDRP, .RSVP, .GRE, .ESP, .AH, .SKIP,
   .IPV6ICMP, .IPV6NONXT, .IPV6OPTS, .RSPF, .VMTP, .EIGRP, .OSPF, .AX25,
   .IPIP, .ETHERIP, .ENCAP, .PIM, .IPCOMP, .VRRP, .L2TP, .ISIS, .SCTP,
   .FC, .MOBILITYHEADER, .UDPLITE, .MPLSINIP, .MANET, .HIP, .SHIM6,
   .WESP, .ROHC]

/-- Left inverse of `IpProtocol.encode`. -/
def IpProtocol.decode (n : Nat) : IpProtocol :=
  if n < 54 then ipProtocolCtors.getD n .HOPOPT else .Unknown (n - 54)

instance : DecidableEq IpProtocol := fun a b =>
  if h : a.encode = b.encode then
    .isTrue (by
      have hd : ∀ c : IpProtocol, IpProtocol.decode c.encode = c := by
        intro c
        cases c
        case Unknown v =>
          show IpProtocol.decode (54 + v) = IpProtocol.Unknown v
          rw [IpProtocol.decode, if_neg (by omega)]
          congr 1
          omega
        all_goals rfl
      rw [← hd a, ← hd b, h])
  else .isFalse fun he => h (by rw [he])

/-- The deku `id` of each named `IpProtocol` variant, in declaration order. -/
def ipProtocolIds : List (Nat × IpProtocol) :=
  [(0, .HOPOPT), (1, .ICMP), (2, .IGMP), (3, .GGP), (4, .IPENCAP), (5, .ST),
   (6, .TCP), (8, .EGP), (9, .IGP), (12, .PUP), (17, .UDP), (20, .HMP),
   (22, .XNSIDP), (27, .RDP), (29, .ISOTP4), (33, .DCCP), (36, .XTP),
   (37, .DDP), (38, .IDPRCMTP), (41, .IPV6), (43, .IPV6ROUTE),
   (44, .IPV6FRAG), (45, .IDRP), (46, .RSVP), (47, .GRE), (50, .ESP),
   (51, .AH), (57, .SKIP), (58, .IPV6ICMP), (59, .IPV6NONXT),
   (60, .IPV6OPTS), (73, .RSPF), (81, .VMTP), (88, .EIGRP), (89, .OSPF),
   (93, .AX25), (94, .IPIP), (97, .ETHERIP), (98, .ENCAP), (103, .PIM),
   (108, .IPCOMP), (112, .VRRP), (115, .L2TP), (124, .ISIS), (132, .SCTP),
   (133, .FC), (135, .MOBILITYHEADER), (136, .UDPLITE), (137, .MPLSINIP),
   (138, .MANET), (139, .HIP), (140, .SHIM6), (141, .WESP), (142, .ROHC)]

/-- Wire id written for an `IpProtocol` (deku write of the `u8` tag). -/
def IpProtocol.toNat : IpProtocol → Nat
  | .HOPOPT => 0 | .ICMP => 1 | .IGMP => 2 | .GGP => 3 | .IPENCAP => 4
  | .ST => 5 | .TCP => 6 | .EGP => 8 | .IGP => 9 | .PUP => 12 | .UDP => 17
  | .HMP => 20 | .XNSIDP => 22 | .RDP => 27 | .ISOTP4 => 29 | .DCCP => 33
  | .XTP => 36 | .DDP => 37 | .IDPRCMTP => 38 | .IPV6 => 41
  | .IPV6ROUTE => 43 | .IPV6FRAG => 44 | .IDRP => 45 | .RSVP => 46
  | .GRE => 47 | .ESP => 50 | .AH => 51 | .SKIP => 57 | .IPV6ICMP => 58
  | .IPV6NONXT => 59 | .IPV6OPTS => 60 | .RSPF => 73 | .VMTP => 81
  | .EIGRP => 88 | .OSPF => 89 | .AX25 => 93 | .IPIP => 94
  | .ETHERIP => 97 | .ENCAP => 98 | .PIM => 103 | .IPCOMP => 108
  | .VRRP => 112 | .L2TP => 115 | .ISIS => 124 | .SCTP => 132 | .FC => 133
  | .MOBILITYHEADER => 135 | .UDPLITE => 136 | .MPLSINIP => 137
  | .MANET => 138 | .HIP => 139 | .SHIM6 => 140 | .WESP => 141
  | .ROHC => 142
  | .Unknown v => v

/-- Variant read for a wire id (deku `id` match with `id_pat = "_"`). -/
def IpProtocol.ofNat (v : Nat) : IpProtocol :=
  (ipProtocolIds.lookup v).getD (.Unknown v)

/-- Default `IpProtocol` is `TCP`. -/
def IpProtocol.default : IpProtocol := .TCP

/-- A protocol value is canonical when re-reading its wire id yields it
back; every parsed value is canonical, `Unknown v` is canonical only for
ids outside the known set. -/
def IpProtocol.canonical (p : IpProtocol) : Prop := IpProtocol.ofNat p.toNat = p

instance (p : IpProtocol) : Decidable p.canonical := by
  unfold IpProtocol.canonical; infer_instance

/-- Icmp types (`src/layer/icmp/icmp_type.rs`), a `u8`-tagged sum. -/
inductive IcmpType where
  | EchoReply | DestUnreach | SourceQuench | Redirect | AlternateHostAddress
  | EchoRequest | RouterAdvertisement | RouterSolicitation | TimeExceeded
  | ParameterProblem | TimestampRequest | TimestampReply
  | InformationRequest | InformationReply | AddressMaskRequest
  | AddressMaskReply | Traceroute | DatagramConversionError
  | MobileHostRedirect | Ipv6WhereAreYou | Ipv6IAmHere
  | MobileRegistrationRequest | MobileRegistrationReply | DomainNameRequest
  | DomainNameReply | Skip | Photuris | ExtendedEchoRequest
  | ExtendedEchoReply
  | Unknown (v : Nat)

deriving DecidableEq, Repr

/-- The deku `id` of each named `IcmpType` variant. -/
def icmpTypeIds : List (Nat × IcmpType) :=
  [(0, .EchoReply), (3, .DestUnreach), (4, .SourceQuench), (5, .Redirect),
   (6, .AlternateHostAddress), (8, .EchoRequest), (9, .RouterAdvertisement),
   (10, .RouterSolicitation), (11, .TimeExceeded), (12, .ParameterProblem),
   (13, .TimestampRequest), (14, .TimestampReply), (15, .InformationRequest),
   (16, .InformationReply), (17, .AddressMaskRequest), (18, .AddressMaskReply),
   (30, .Traceroute), (31, .DatagramConversionError), (32, .MobileHostRedirect),
   (33, .Ipv6WhereAreYou), (34, .Ipv6IAmHere), (35, .MobileRegistrationRequest),
   (36, .MobileRegistrationReply), (37, .DomainNameRequest),
   (38, .DomainNameReply), (39, .Skip), (40, .Photuris),
   (42, .ExtendedEchoRequest), (43, .ExtendedEchoReply)]

/-- Wire id written for an `IcmpType`. -/
def IcmpType.toNat : IcmpType → Nat
  | .EchoReply => 0 | .DestUnreach => 3 | .SourceQuench => 4 | .Redirect => 5
  | .AlternateHostAddress => 6 | .EchoRequest => 8 | .RouterAdvertisement => 9
  | .RouterSolicitation => 10 | .TimeExceeded => 11 | .ParameterProblem => 12
  | .TimestampRequest => 13 | .TimestampReply => 14
  | .InformationRequest => 15 | .InformationReply => 16
  | .AddressMaskRequest => 17 | .AddressMaskReply => 18 | .Traceroute => 30
  | .DatagramConversionError => 31 | .MobileHostRedirect => 32
  | .Ipv6WhereAreYou => 33 | .Ipv6IAmHere => 34
  | .MobileRegistrationRequest => 35 | .MobileRegistrationReply => 36
  | .DomainNameRequest => 37 | .DomainNameReply => 38 | .Skip => 39
  | .Photuris => 40 | .ExtendedEchoRequest => 42 | .ExtendedEchoReply => 43
  | .Unknown v => v

/-- Variant read for a wire id. -/
def IcmpType.ofNat (v : Nat) : IcmpType :=
  (icmpTypeIds.lookup v).getD (.Unknown v)

/-- Canonicity of an `IcmpType` value. -/
def IcmpType.canonical (p : IcmpType) : Prop := IcmpType.ofNat p.toNat = p

instance (p : IcmpType) : Decidable p.canonical := by
  unfold IcmpType.canonical; infer_instance

/-- Modelled from the spec: `src/layer/ether/ethertype.rs` is absent from
the source tree (only `mod ethertype;` and its uses remain).  Per spec
section 3, `EtherType` is a tagged sum over a known integer set with an
`Unknown(integer)` catch-all, encoded as 2 bytes; the variants used by the
default bindings are `IPv4` (0x0800) and `IPv6` (0x86DD). -/
inductive EtherType where
  | IPv4
  | IPv6
  | Unknown (v : Nat)

deriving DecidableEq, Repr

/-- Known EtherType wire ids (modelled from the spec). -/
def etherTypeIds : List (Nat × EtherType) := [(0x0800, .IPv4), (0x86DD, .IPv6)]

/-- Wire id written for an `EtherType` (2 bytes big endian). -/
def EtherType.toNat : EtherType → Nat
  | .IPv4 => 0x0800
  | .IPv6 => 0x86DD
  | .Unknown v => v

/-- Variant read for an EtherType wire id. -/
def EtherType.ofNat (v : Nat) : EtherType :=
  (etherTypeIds.lookup v).getD (.Unknown v)

/-- Canonicity of an `EtherType` value. -/
def EtherType.canonical (p : EtherType) : Prop := EtherType.ofNat p.toNat = p

instance (p : EtherType) : Decidable p.canonical := by
  unfold EtherType.canonical; infer_instance

/- ## Ether (`src/layer/ether/mod.rs`, `macaddress.rs`) -/

/-- Mac address, 6 bytes on the wire. -/
structure MacAddress where
  bytes : List Nat

deriving DecidableEq, Repr

/-- Ethernet frame header. -/
structure Ether where
  dst : MacAddress
  src : MacAddress
  ether_type : EtherType

deriving DecidableEq, Repr

/-- `Ether::parse`: 6-byte dst, 6-byte src, 2-byte ether type. -/
def Ether.parse (input : List Nat) : Except LayerError (List Nat × Ether) := do
  let (d, r) ← readBytes 6 input
  let (s, r) ← readBytes 6 r
  let (ty, r) ← readBE 2 r
  .ok (r, { dst := ⟨d⟩, src := ⟨s⟩, ether_type := EtherType.ofNat ty })

/-- `Ether::to_bytes` (deku serialization). -/
def Ether.to_bytes (e : Ether) : List Nat :=
  e.dst.bytes ++ e.src.bytes ++ beBytes 2 e.ether_type.toNat

/- ## Ipv4 (`src/layer/ip/ipv4.rs`) -/

/-- Ipv4 option type: EOOL (id 0), NOP (id 1), catch-all Unknown with a
5-bit type, a length byte and `length - 2` value bytes.  The option class
(`Ipv4OptionClass`, a C-like 2-bit enum Control/Reserved1/Debug/Reserved2)
is modelled by its 2-bit tag. -/
inductive Ipv4OptionType where
  | EOOL
  | NOP
  | Unknown (type_ : Nat) (length : Nat) (value : List Nat)

deriving DecidableEq, Repr

/-- Ipv4 option: 1-bit copied flag, 2-bit class, 5-bit type. -/
structure Ipv4Option where
  copied : Nat
  class_ : Nat
  option : Ipv4OptionType

deriving DecidableEq, Repr

/-- Read one ipv4 option (deku derive on `Ipv4Option`): read the packed
first byte; for an unknown type read the length byte then `length - 2`
value bytes, failing when `length < 2` (the `checked_sub` in the `count`
attribute). -/
def Ipv4Option.read (bs : List Nat) : Except LayerError (Ipv4Option × List Nat) :=
  match bs with
  | [] => .error (.Incomplete 1)
  | b :: r =>
    let copied := b / 128
    let class_ := b / 32 % 4
    let ty := b % 32
    if ty = 0 then .ok ({ copied, class_, option := .EOOL }, r)
    else if ty = 1 then .ok ({ copied, class_, option := .NOP }, r)
    else
      match readBE 1 r with
      | .error e => .error e
      | .ok (len, r) =>
        if len < 2 then .error (.Parse "overflow when parsing ipv4 option")
        else
          match readBytes (len - 2) r with
          | .error e => .error e
          | .ok (v, r) => .ok ({ copied, class_, option := .Unknown ty len v }, r)

/-- Serialize one ipv4 option; the stored length byte is written as-is
(deku `update` only runs on an explicit `update()` call). -/
def Ipv4Option.write (o : Ipv4Option) : List Nat :=
  match o.option with
  | .EOOL => [o.copied % 2 * 128 + o.class_ % 4 * 32]
  | .NOP => [o.copied % 2 * 128 + o.class_ % 4 * 32 + 1]
  | .Unknown ty len v => (o.copied % 2 * 128 + o.class_ % 4 * 32 + ty % 32) :: len % 256 :: v

/-- Serialized ipv4 options vector. -/
def ipv4OptionsBytes (opts : List Ipv4Option) : List Nat :=
  (opts.map Ipv4Option.write).flatten

/-- The option-region `while !option_rest.is_empty()` loop of
`Ipv4::read_options`.  `fuel` bounds the recursion; every successful
`Ipv4Option.read` consumes at least one byte, so with `fuel = region.length`
the fuel-exhaustion case is unreachable. -/
def readIpv4OptionsLoop : Nat → List Nat → Except LayerError (List Ipv4Option)
  | _, [] => .ok []
  | 0, _ :: _ => .error (.Incomplete 1)
  | fuel + 1, b :: r =>
    match Ipv4Option.read (b :: r) with
    | .error e => .error e
    | .ok (o, rest) =>
      match readIpv4OptionsLoop fuel rest with
      | .error e => .error e
      | .ok os => .ok (o :: os)

/-- `Ipv4::read_options` (`src/layer/ip/ipv4.rs` lines 144-177): for
`ihl > 5` split off `(ihl - 5)` 32-bit words and parse options until the
region is exhausted; otherwise no options. -/
def Ipv4.read_options (ihl : Nat) (rest : List Nat) :
    Except LayerError (List Nat × List Ipv4Option) :=
  if ihl > 5 then
    if (ihl - 5) * 32 > rest.length * 8 then
      .error (.Parse "not enough data to read ipv4 options")
    else
      match readIpv4OptionsLoop (rest.take ((ihl - 5) * 4)).length
          (rest.take ((ihl - 5) * 4)) with
      | .error e => .error e
      | .ok os => .ok (rest.drop ((ihl - 5) * 4), os)
  else .ok (rest, [])

/-- Ipv4 header. -/
structure Ipv4 where
  version : Nat
  ihl : Nat
  dscp : Nat
  ecn : Nat
  length : Nat
  identification : Nat
  flags : Nat
  offset : Nat
  ttl : Nat
  protocol : IpProtocol
  checksum : Nat
  src : Nat
  dst : Nat
  options : List Ipv4Option

deriving DecidableEq, Repr

/-- `impl Default for Ipv4`. -/
def Ipv4.default : Ipv4 :=
  { version := 4, ihl := 5, ecn := 0, dscp := 0, length := 0,
    identification := 0, flags := 0, offset := 0, ttl := 0,
    protocol := .TCP, checksum := 0, src := 0x7F000001, dst := 0x7F000001,
    options := [] }

/-- `Ipv4::parse` (deku read of the header followed by the options
reader).  Packed bytes are split by bit position, most significant first. -/
def Ipv4.parse (input : List Nat) : Except LayerError (List Nat × Ipv4) := do
  let (b0, r) ← readBE 1 input
  let (b1, r) ← readBE 1 r
  let (len, r) ← readBE 2 r
  let (ident, r) ← readBE 2 r
  let (w, r) ← readBE 2 r
  let (ttl, r) ← readBE 1 r
  let (proto, r) ← readBE 1 r
  let (ck, r) ← readBE 2 r
  let (src, r) ← readBE 4 r
  let (dst, r) ← readBE 4 r
  let (rest, opts) ← Ipv4.read_options (b0 % 16) r
  .ok (rest,
    { version := b0 / 16, ihl := b0 % 16, dscp := b1 / 4, ecn := b1 % 4,
      length := len, identification := ident, flags := w / 8192,
      offset := w % 8192, ttl, protocol := IpProtocol.ofNat proto,
      checksum := ck, src, dst, options := opts })

/-- `Ipv4::to_bytes` (deku serialization; bit fields are masked to their
declared widths, byte fields to a byte). -/
def Ipv4.to_bytes (v : Ipv4) : List Nat :=
  [v.version % 16 * 16 + v.ihl % 16, v.dscp % 64 * 4 + v.ecn % 4] ++
  beBytes 2 v.length ++ beBytes 2 v.identification ++
  beBytes 2 (v.flags % 8 * 8192 + v.offset % 8192) ++
  [v.ttl % 256, v.protocol.toNat % 256] ++
  beBytes 2 v.checksum ++ beBytes 4 v.src ++ beBytes 4 v.dst ++
  ipv4OptionsBytes v.options

/- ## Ipv6 (`src/layer/ip/ipv6.rs`) -/

/-- Ipv6 header, fixed 40 bytes. -/
structure Ipv6 where
  version : Nat
  ds : Nat
  ecn : Nat
  label : Nat
  length : Nat
  next_header : IpProtocol
  hop_limit : Nat
  src : Nat
  dst : Nat

deriving DecidableEq, Repr

/-- `impl Default for Ipv6`. -/
def Ipv6.default : Ipv6 :=
  { version := 0, ds := 0, ecn := 0, label := 0, length := 0,
    next_header := .IPV6NONXT, hop_limit := 0,
    src := 0xff000000000000000000000000000000,
    dst := 0xff000000000000000000000000000000 }

/-- `Ipv6::parse`. The first 32-bit group packs version(4), ds(6),
ecn(2), label(20). -/
def Ipv6.parse (input : List Nat) : Except LayerError (List Nat × Ipv6) := do
  let (w, r) ← readBE 4 input
  let (len, r) ← readBE 2 r
  let (nh, r) ← readBE 1 r
  let (hop, r) ← readBE 1 r
  let (src, r) ← readBE 16 r
  let (dst, r) ← readBE 16 r
  .ok (r,
    { version := w / 2 ^ 28, ds := w / 2 ^ 22 % 64, ecn := w / 2 ^ 20 % 4,
      label := w % 2 ^ 20, length := len, next_header := IpProtocol.ofNat nh,
      hop_limit := hop, src, dst })

/-- `Ipv6::to_bytes`. -/
def Ipv6.to_bytes (v : Ipv6) : List Nat :=
  beBytes 4 (v.version % 16 * 2 ^ 28 + v.ds % 64 * 2 ^ 22 + v.ecn % 4 * 2 ^ 20 +
    v.label % 2 ^ 20) ++
  beBytes 2 v.length ++ [v.next_header.toNat % 256, v.hop_limit % 256] ++
  beBytes 16 v.src ++ beBytes 16 v.dst

/- ## Icmp4 (`src/layer/icmp/mod.rs`) -/

/-- ICMP header; `data` consumes all remaining input. -/
structure Icmp4 where
  icmp_type : IcmpType
  code : Nat
  checksum : Nat
  message : Nat
  data : List Nat

deriving DecidableEq, Repr

/-- `impl Default for Icmp4`. -/
def Icmp4.default : Icmp4 :=
  { icmp_type := .EchoReply, code := 0, checksum := 0, message := 0, data := [] }

/-- `Icmp4::parse`; the `count = rest.len() / 8` data field reads every
remaining byte, so the remainder is always empty. -/
def Icmp4.parse (input : List Nat) : Except LayerError (List Nat × Icmp4) := do
  let (t, r) ← readBE 1 input
  let (code, r) ← readBE 1 r
  let (ck, r) ← readBE 2 r
  let (msg, r) ← readBE 4 r
  .ok ([], { icmp_type := IcmpType.ofNat t, code, checksum := ck,
             message := msg, data := r })

/-- `Icmp4::to_bytes`. -/
def Icmp4.to_bytes (v : Icmp4) : List Nat :=
  v.icmp_type.toNat % 256 :: v.code % 256 :: beBytes 2 v.checksum ++
  beBytes 4 v.message ++ v.data

/- ## Tcp options

Modelled from the spec: `src/layer/tcp/options.rs` is absent from the
source tree (only `mod options;` and its uses remain).  Spec section 3:
a tagged sum over EOL, NOP, MSS, WindowScale, SAckPermitted,
SAck{length, value: Vec<SAckData>}, Timestamp{length, value:
TimestampData{start, end}}, Unknown{kind, length, value}, each encoded in
the standard kind/length/value form (kinds 0, 1, 2, 3, 4, 5, 8); spec
section 4.4: a length byte smaller than 2 is a parse error. -/

/-- SAck block, two 32-bit sequence numbers (Rust fields `begin`/`end`). -/
structure SAckData where
  begin_ : Nat
  end_ : Nat

deriving DecidableEq, Repr

/-- Timestamp option payload (Rust fields `start`/`end`). -/
structure TimestampData where
  start : Nat
  end_ : Nat

deriving DecidableEq, Repr

/-- Modelled from the spec: tcp option (see the section comment above). -/
inductive TcpOption where
  | EOL
  | NOP
  | MSS (length : Nat) (value : Nat)
  | WindowScale (length : Nat) (value : Nat)
  | SAckPermitted (length : Nat)
  | SAck (length : Nat) (value : List SAckData)
  | Timestamp (length : Nat) (value : TimestampData)
  | Unknown (kind : Nat) (length : Nat) (value : List Nat)

deriving DecidableEq, Repr

/-- Serialized SAck blocks: two 32-bit big-endian words each. -/
def sackBytes (vs : List SAckData) : List Nat :=
  (vs.map (fun d => beBytes 4 d.begin_ ++ beBytes 4 d.end_)).flatten

/-- Read `count` SAck blocks. -/
def readSAckData : Nat → List Nat → Except LayerError (List SAckData × List Nat)
  | 0, bs => .ok ([], bs)
  | c + 1, bs => do
    let (b, r) ← readBE 4 bs
    let (e, r) ← readBE 4 r
    let (vs, r) ← readSAckData c r
    .ok (⟨b, e⟩ :: vs, r)

/-- Modelled from the spec: read one tcp option in kind/length/value
form.  SAck reads `(length - 2) / 8` blocks; Unknown reads `length - 2`
raw bytes; both fail when `length < 2`. -/
def TcpOption.read (bs : List Nat) : Except LayerError (TcpOption × List Nat) :=
  match bs with
  | [] => .error (.Incomplete 1)
  | k :: r =>
    if k = 0 then .ok (.EOL, r)
    else if k = 1 then .ok (.NOP, r)
    else if k = 2 then do
      let (len, r) ← readBE 1 r
      let (v, r) ← readBE 2 r
      .ok (.MSS len v, r)
    else if k = 3 then do
      let (len, r) ← readBE 1 r
      let (v, r) ← readBE 1 r
      .ok (.WindowScale len v, r)
    else if k = 4 then do
      let (len, r) ← readBE 1 r
      .ok (.SAckPermitted len, r)
    else if k = 5 then do
      let (len, r) ← readBE 1 r
      if len < 2 then .error (.Parse "overflow when parsing tcp option")
      else do
        let (vs, r) ← readSAckData ((len - 2) / 8) r
        .ok (.SAck len vs, r)
    else if k = 8 then do
      let (len, r) ← readBE 1 r
      let (s, r) ← readBE 4 r
      let (e, r) ← readBE 4 r
      .ok (.Timestamp len ⟨s, e⟩, r)
    else do
      let (len, r) ← readBE 1 r
      if len < 2 then .error (.Parse "overflow when parsing tcp option")
      else do
        let (v, r) ← readBytes (len - 2) r
        .ok (.Unknown k len v, r)

/-- Modelled from the spec: serialize one tcp option; the stored length
byte is written as-is. -/
def TcpOption.write : TcpOption → List Nat
  | .EOL => [0]
  | .NOP => [1]
  | .MSS len v => 2 :: len % 256 :: beBytes 2 v
  | .WindowScale len v => 3 :: len % 256 :: beBytes 1 v
  | .SAckPermitted len => [4, len % 256]
  | .SAck len vs => 5 :: len % 256 :: sackBytes vs
  | .Timestamp len v => 8 :: len % 256 :: (beBytes 4 v.start ++ beBytes 4 v.end_)
  | .Unknown k len v => k % 256 :: len % 256 :: v

/- ## Tcp (`src/layer/tcp/mod.rs`) -/

/-- Tcp flags, 12 bits following the 4-bit data offset. -/
structure TcpFlags where
  reserved : Nat
  nonce : Nat
  crw : Nat
  ecn : Nat
  urgent : Nat
  ack : Nat
  push : Nat
  reset : Nat
  syn : Nat
  fin : Nat

deriving DecidableEq, Repr

/-- `impl Default for TcpFlags`. -/
def TcpFlags.default : TcpFlags :=
  { reserved := 0, nonce := 0, crw := 0, ecn := 0, urgent := 0, ack := 0,
    push := 0, reset := 0, syn := 0, fin := 0 }

/-- Tcp header. -/
structure Tcp where
  sport : Nat
  dport : Nat
  seq : Nat
  ack : Nat
  offset : Nat
  flags : TcpFlags
  window : Nat
  checksum : Nat
  urgptr : Nat
  options : List TcpOption

deriving DecidableEq, Repr

/-- `impl Default for Tcp`. -/
def Tcp.default : Tcp :=
  { sport := 0, dport := 0, seq := 0, ack := 0, offset := 5,
    flags := TcpFlags.default, window := 0, checksum := 0, urgptr := 0,
    options := [] }

/-- Serialized tcp options vector. -/
def tcpOptionsBytes (opts : List TcpOption) : List Nat :=
  (opts.map TcpOption.write).flatten

/-- The option-region `while !option_rest.is_empty()` loop of
`Tcp::read_options`; as for ipv4, `fuel = region.length` makes the
fuel-exhaustion case unreachable. -/
def readTcpOptionsLoop : Nat → List Nat → Except LayerError (List TcpOption)
  | _, [] => .ok []
  | 0, _ :: _ => .error (.Incomplete 1)
  | fuel + 1, b :: r =>
    match TcpOption.read (b :: r) with
    | .error e => .error e
    | .ok (o, rest) =>
      match readTcpOptionsLoop fuel rest with
      | .error e => .error e
      | .ok os => .ok (o :: os)

/-- `Tcp::read_options` (`src/layer/tcp/mod.rs` lines 123-159):
`offset.checked_sub(5).and_then(checked_mul(4))` fails for `offset < 5`
(or a `u8` overflow of the product) with the invalid-offset parse error;
a zero-length region yields no options; a region longer than the
remaining input is the not-enough-data parse error. -/
def Tcp.read_options (offset : Nat) (rest : List Nat) :
    Except LayerError (List Nat × List TcpOption) :=
  if offset < 5 ∨ (offset - 5) * 4 > 255 then
    .error (.Parse "error: invalid tcp offset")
  else if (offset - 5) * 4 = 0 then .ok (rest, [])
  else if (offset - 5) * 4 * 8 > rest.length * 8 then
    .error (.Parse "not enough data to read tcp options")
  else
    match readTcpOptionsLoop (rest.take ((offset - 5) * 4)).length
        (rest.take ((offset - 5) * 4)) with
    | .error e => .error e
    | .ok os => .ok (rest.drop ((offset - 5) * 4), os)

/-- `Tcp::parse`.  Byte 12 packs offset(4), reserved(3), nonce(1); byte
13 packs crw, ecn, urgent, ack, push, reset, syn, fin, one bit each. -/
def Tcp.parse (input : List Nat) : Except LayerError (List Nat × Tcp) := do
  let (sport, r) ← readBE 2 input
  let (dport, r) ← readBE 2 r
  let (seq, r) ← readBE 4 r
  let (ackn, r) ← readBE 4 r
  let (b12, r) ← readBE 1 r
  let (b13, r) ← readBE 1 r
  let (window, r) ← readBE 2 r
  let (ck, r) ← readBE 2 r
  let (urgptr, r) ← readBE 2 r
  let (rest, opts) ← Tcp.read_options (b12 / 16) r
  .ok (rest,
    { sport, dport, seq, ack := ackn, offset := b12 / 16,
      flags := { reserved := b12 / 2 % 8, nonce := b12 % 2,
                 crw := b13 / 128, ecn := b13 / 64 % 2,
                 urgent := b13 / 32 % 2, ack := b13 / 16 % 2,
                 push := b13 / 8 % 2, reset := b13 / 4 % 2,
                 syn := b13 / 2 % 2, fin := b13 % 2 },
      window, checksum := ck, urgptr, options := opts })

/-- `Tcp::to_bytes`. -/
def Tcp.to_bytes (t : Tcp) : List Nat :=
  beBytes 2 t.sport ++ beBytes 2 t.dport ++ beBytes 4 t.seq ++
  beBytes 4 t.ack ++
  [t.offset % 16 * 16 + t.flags.reserved % 8 * 2 + t.flags.nonce % 2] ++
  [t.flags.crw % 2 * 128 + t.flags.ecn % 2 * 64 + t.flags.urgent % 2 * 32 +
    t.flags.ack % 2 * 16 + t.flags.push % 2 * 8 + t.flags.reset % 2 * 4 +
    t.flags.syn % 2 * 2 + t.flags.fin % 2] ++
  beBytes 2 t.window ++ beBytes 2 t.checksum ++ beBytes 2 t.urgptr ++
  tcpOptionsBytes t.options

/- ## Udp (`src/layer/udp/mod.rs`) -/

/-- Udp header, fixed 8 bytes. -/
structure Udp where
  sport : Nat
  dport : Nat
  length : Nat
  checksum : Nat

deriving DecidableEq, Repr

/-- `impl Default for Udp`. -/
def Udp.default : Udp := { sport := 0, dport := 0, length := 0, checksum := 0 }

/-- `Udp::parse`. -/
def Udp.parse (input : List Nat) : Except LayerError (List Nat × Udp) := do
  let (sport, r) ← readBE 2 input
  let (dport, r) ← readBE 2 r
  let (len, r) ← readBE 2 r
  let (ck, r) ← readBE 2 r
  .ok (r, { sport, dport, length := len, checksum := ck })

/-- `Udp::to_bytes`. -/
def Udp.to_bytes (v : Udp) : List Nat :=
  beBytes 2 v.sport ++ beBytes 2 v.dport ++ beBytes 2 v.length ++
  beBytes 2 v.checksum

/- ## Raw (`src/layer/raw/mod.rs`) -/

/-- Raw layer: all remaining bytes, plus a `#[deku(skip)]` bit offset that
defaults to 0 on read and is not serialized. -/
structure Raw where
  data : List Nat
  bit_offset : Nat

deriving DecidableEq, Repr

/-- `impl Default for Raw`. -/
def Raw.default : Raw := { data := [], bit_offset := 0 }

/-- `Raw::parse` consumes everything. -/
def Raw.parse (input : List Nat) : Except LayerError (List Nat × Raw) :=
  .ok ([], { data := input, bit_offset := 0 })

/-- `Raw::to_bytes`. -/
def Raw.to_bytes (v : Raw) : List Nat := v.data

/- ## Representability predicates

A layer value is well-formed when it is representable as a Rust value of
the source type and canonical for its codec: integer fields fit their
declared bit widths, enum fields carry their own wire id, stored option
lengths agree with the stored values, and the declared options-region
size matches the serialized options. -/

/-- Representable tcp option. -/
def TcpOption.wf : TcpOption → Prop
  | .EOL => True
  | .NOP => True
  | .MSS len v => len < 256 ∧ v < 65536
  | .WindowScale len v => len < 256 ∧ v < 256
  | .SAckPermitted len => len < 256
  | .SAck len vs => len < 256 ∧ 2 ≤ len ∧ (len - 2) / 8 = vs.length ∧
      ∀ d ∈ vs, d.begin_ < 4294967296 ∧ d.end_ < 4294967296
  | .Timestamp len v => len < 256 ∧ v.start < 4294967296 ∧ v.end_ < 4294967296
  | .Unknown k len v => k < 256 ∧ k ∉ ([0, 1, 2, 3, 4, 5, 8] : List Nat) ∧
      len < 256 ∧ 2 ≤ len ∧ v.length = len - 2

instance (o : TcpOption) : Decidable o.wf := by
  cases o <;> simp only [TcpOption.wf] <;> infer_instance

/-- Representable ipv4 option. -/
def Ipv4Option.wf (o : Ipv4Option) : Prop :=
  o.copied < 2 ∧ o.class_ < 4 ∧
  match o.option with
  | .EOOL => True
  | .NOP => True
  | .Unknown ty len v => 2 ≤ ty ∧ ty < 32 ∧ len < 256 ∧ 2 ≤ len ∧
      v.length = len - 2

instance (o : Ipv4Option) : Decidable o.wf := by
  unfold Ipv4Option.wf
  cases o.option <;> infer_instance

/-- Representable mac address. -/
def MacAddress.wf (m : MacAddress) : Prop :=
  m.bytes.length = 6 ∧ ∀ x ∈ m.bytes, x < 256

instance (m : MacAddress) : Decidable m.wf := by
  unfold MacAddress.wf; infer_instance

/-- Representable ether layer. -/
def Ether.wf (e : Ether) : Prop :=
  e.dst.wf ∧ e.src.wf ∧ e.ether_type.canonical ∧ e.ether_type.toNat < 65536

instance (e : Ether) : Decidable e.wf := by
  unfold Ether.wf; infer_instance

/-- Representable ipv4 layer. -/
def Ipv4.wf (v : Ipv4) : Prop :=
  v.version < 16 ∧ v.ihl < 16 ∧ v.dscp < 64 ∧ v.ecn < 4 ∧
  v.length < 65536 ∧ v.identification < 65536 ∧ v.flags < 8 ∧
  v.offset < 8192 ∧ v.ttl < 256 ∧ v.protocol.canonical ∧
  v.protocol.toNat < 256 ∧ v.checksum < 65536 ∧ v.src < 4294967296 ∧
  v.dst < 4294967296 ∧ (∀ o ∈ v.options, o.wf) ∧
  (if v.ihl ≤ 5 then v.options = []
   else (ipv4OptionsBytes v.options).length = (v.ihl - 5) * 4)

instance (v : Ipv4) : Decidable v.wf := by
  unfold Ipv4.wf; infer_instance

/-- Representable ipv6 layer. -/
def Ipv6.wf (v : Ipv6) : Prop :=
  v.version < 16 ∧ v.ds < 64 ∧ v.ecn < 4 ∧ v.label < 1048576 ∧
  v.length < 65536 ∧ v.next_header.canonical ∧ v.next_header.toNat < 256 ∧
  v.hop_limit < 256 ∧ v.src < 2 ^ 128 ∧ v.dst < 2 ^ 128

instance (v : Ipv6) : Decidable v.wf := by
  unfold Ipv6.wf; infer_instance

/-- Representable icmp layer. -/
def Icmp4.wf (v : Icmp4) : Prop :=
  v.icmp_type.canonical ∧ v.icmp_type.toNat < 256 ∧ v.code < 256 ∧
  v.checksum < 65536 ∧ v.message < 4294967296

instance (v : Icmp4) : Decidable v.wf := by
  unfold Icmp4.wf; infer_instance

/-- Representable tcp flags. -/
def TcpFlags.wf (f : TcpFlags) : Prop :=
  f.reserved < 8 ∧ f.nonce < 2 ∧ f.crw < 2 ∧ f.ecn < 2 ∧ f.urgent < 2 ∧
  f.ack < 2 ∧ f.push < 2 ∧ f.reset < 2 ∧ f.syn < 2 ∧ f.fin < 2

instance (f : TcpFlags) : Decidable f.wf := by
  unfold TcpFlags.wf; infer_instance

/-- Representable tcp layer: fields in range, options representable, and
the serialized options fill exactly the `(offset - 5)` declared 32-bit
words. -/
def Tcp.wf (t : Tcp) : Prop :=
  t.sport < 65536 ∧ t.dport < 65536 ∧ t.seq < 4294967296 ∧
  t.ack < 4294967296 ∧ 5 ≤ t.offset ∧ t.offset < 16 ∧ t.flags.wf ∧
  t.window < 65536 ∧ t.checksum < 65536 ∧ t.urgptr < 65536 ∧
  (∀ o ∈ t.options, o.wf) ∧
  (tcpOptionsBytes t.options).length = (t.offset - 5) * 4

instance (t : Tcp) : Decidable t.wf := by
  unfold Tcp.wf; infer_instance

/-- Representable udp layer. -/
def Udp.wf (v : Udp) : Prop :=
  v.sport < 65536 ∧ v.dport < 65536 ∧ v.length < 65536 ∧ v.checksum < 65536

instance (v : Udp) : Decidable v.wf := by
  unfold Udp.wf; infer_instance

/-- Representable raw layer: the skipped `bit_offset` is 0, as on every
parsed value. -/
def Raw.wf (v : Raw) : Prop := v.bit_offset = 0

instance (v : Raw) : Decidable v.wf := by
  unfold Raw.wf; infer_instance

/- ## Boxed layers, layer utils (`src/layer/utils.rs`) and finalize -/

/-- A boxed layer (`LayerOwned = Box<dyn LayerExt>`): the crate's layers
plus `ext`, standing for an arbitrary external `LayerExt` implementation
whose serialization is the given byte list (such as the test layers
`Layer0`/`Layer100`), and `extFail`, an external layer whose `to_bytes`
fails with the given error. -/
inductive DynLayer where
  | ether (v : Ether)
  | ipv4 (v : Ipv4)
  | ipv6 (v : Ipv6)
  | icmp4 (v : Icmp4)
  | tcp (v : Tcp)
  | udp (v : Udp)
  | raw (v : Raw)
  | ext (bytes : List Nat)
  | extFail (e : LayerError)

deriving DecidableEq, Repr

/-- `LayerExt::to_bytes` on a boxed layer. -/
def DynLayer.to_bytes : DynLayer → Except LayerError (List Nat)
  | .ether v => .ok v.to_bytes
  | .ipv4 v => .ok v.to_bytes
  | .ipv6 v => .ok v.to_bytes
  | .icmp4 v => .ok v.to_bytes
  | .tcp v => .ok v.to_bytes
  | .udp v => .ok v.to_bytes
  | .raw v => .ok v.to_bytes
  | .ext bytes => .ok bytes
  | .extFail e => .error e

/-- `LayerExt::length` default implementation: `to_bytes()?.len()`. -/
def DynLayer.length (l : DynLayer) : Except LayerError Nat :=
  l.to_bytes.map List.length

/-- `get_layer!(layer, Ipv4)`. -/
def DynLayer.asIpv4 : DynLayer → Option Ipv4
  | .ipv4 v => some v
  | _ => none

/-- `get_layer!(layer, Ipv6)`. -/
def DynLayer.asIpv6 : DynLayer → Option Ipv6
  | .ipv6 v => some v
  | _ => none

/-- `length_of_layers` (`src/layer/utils.rs` lines 9-16): sum of layer
lengths.  The `checked_add` overflow error cannot fire over `Nat`. -/
def length_of_layers (layers : List DynLayer) : Except LayerError Nat :=
  layers.foldlM (fun acc l => do
    let len ← l.length
    .ok (acc + len)) 0

/-- `data_of_layers` (`src/layer/utils.rs` lines 19-25): concatenation of
layer serializations. -/
def data_of_layers (layers : List DynLayer) : Except LayerError (List Nat) :=
  layers.foldlM (fun acc l => do
    let d ← l.to_bytes
    .ok (acc ++ d)) []

/-- Serialization of the `Ipv4PseudoHeader` struct of
`src/layer/tcp/mod.rs` lines 202-223: src, dst, a zero byte, the
protocol byte and the 16-bit tcp length. -/
def ipv4PseudoHeaderBytes (ipv4 : Ipv4) (tcp_length : Nat) : List Nat :=
  beBytes 4 ipv4.src ++ beBytes 4 ipv4.dst ++
  [0, ipv4.protocol.toNat % 256] ++ beBytes 2 tcp_length

/-- Serialization of the `Ipv6PseudoHeader` struct of
`src/layer/tcp/mod.rs` lines 179-200: src, dst, the 32-bit tcp length,
three zero bytes and the next-header byte. -/
def ipv6PseudoHeaderBytes (ipv6 : Ipv6) (tcp_length : Nat) : List Nat :=
  beBytes 16 ipv6.src ++ beBytes 16 ipv6.dst ++ beBytes 4 tcp_length ++
  [0, 0, 0, ipv6.next_header.toNat % 256]

/-- The checksum stage of `Tcp::finalize` (`src/layer/tcp/mod.rs` lines
243-296): given the padded value `t1` and the serialized checksum-zeroed
header `tcp_header`, update the checksum from the last previous layer's
pseudo-header (if it is IPv4 or IPv6) and the payload of the next layers. -/
def Tcp.finalizeChecksummed (t1 : Tcp) (tcp_header : List Nat)
    (prev next : List DynLayer) : Except LayerError Tcp :=
  match prev.getLast? with
  | some prev_layer => do
    let tcp_payload ← data_of_layers next
    let tcp_length := tcp_header.length + tcp_payload.length
    let ip_pseudo_header ← (match prev_layer.asIpv4 with
      | some ipv4 =>
        if tcp_length < 65536 then
          .ok (some (ipv4PseudoHeaderBytes ipv4 tcp_length))
        else .error (.Finalize "Failed to convert tcp_length to u16")
      | none =>
        match prev_layer.asIpv6 with
        | some ipv6 =>
          if tcp_length < 4294967296 then
            .ok (some (ipv6PseudoHeaderBytes ipv6 tcp_length))
          else .error (.Finalize "Failed to convert tcp_length to u32")
        | none => .ok none)
    match ip_pseudo_header with
    | some ph =>
      .ok { t1 with
            checksum := Hatchet.checksum (ph ++ tcp_header ++ tcp_payload) }
    | none => .ok t1
  | none => .ok t1

/-- `Tcp::finalize` (`src/layer/tcp/mod.rs` lines 227-304): pad the
options with EOL to a 32-bit boundary, serialize with the checksum bytes
16-17 cleared, run the checksum stage, and finally set `offset` from the
padded header length.  The header used for the checksum carries the
pre-finalize `offset` field, since the source updates `self.offset` only
after the checksum computation. -/
def Tcp.finalize (t : Tcp) (prev next : List DynLayer) :
    Except LayerError Tcp := do
  let data := Tcp.to_bytes t
  let pad_amt := 4 * ((data.length + 3) / 4) - data.length
  let t1 : Tcp := { t with options := t.options ++ List.replicate pad_amt .EOL }
  let tcp_header := ((Tcp.to_bytes t1).set 16 0).set 17 0
  let t2 ← Tcp.finalizeChecksummed t1 tcp_header prev next
  if tcp_header.length / 4 < 256 then
    .ok { t2 with offset := tcp_header.length / 4 }
  else .error (.Finalize "Failed to convert tcp offset to u8")

/-- `Ipv4::update_checksum` (`src/layer/ip/ipv4.rs` lines 180-190):
serialize, zero bytes 10-11, store the Internet checksum.  Total here
because the model's `to_bytes` is total. -/
def Ipv4.update_checksum (v : Ipv4) : Ipv4 :=
  { v with checksum := Hatchet.checksum ((v.to_bytes.set 10 0).set 11 0) }

/-- `Ipv4::finalize` (`src/layer/ip/ipv4.rs` lines 216-233): set `length`
to own serialized length plus the lengths of the following layers, failing
when it does not fit `u16`, then update the header checksum. -/
def Ipv4.finalize (v : Ipv4) (_prev next : List DynLayer) :
    Except LayerError Ipv4 := do
  let nl ← length_of_layers next
  let total := v.to_bytes.length + nl
  if total < 65536 then
    .ok ({ v with length := total }).update_checksum
  else .error (.Finalize "Could not convert layer length to u16")

/- ## Packet (`src/packet/mod.rs`) -/

/-- The loop body of `Packet::finalize`: `done` holds the already
finalized prefix (`prev`), the head of `todo` is `current`, its tail is
`next`; the layer's finalize output replaces it in place. -/
def packetFinalizeGo {α : Type}
    (F : α → List α → List α → Except LayerError α) :
    List α → List α → Except PacketError (List α)
  | done, [] => .ok done
  | done, x :: todo =>
    match F x done todo with
    | .error e => .error (PacketError.ofLayerError e)
    | .ok x' => packetFinalizeGo F (done ++ [x']) todo

/-- `Packet::finalize` (`src/packet/mod.rs` lines 51-61), generic in the
layer type and each layer's finalize function `F`. -/
def Packet.finalize {α : Type}
    (F : α → List α → List α → Except LayerError α) (layers : List α) :
    Except PacketError (List α) :=
  packetFinalizeGo F [] layers

/- ## PacketParser (`src/packet/mod.rs` lines 102-283) -/

/-- A dispatch callback (`LayerBinding`): given the current layer and the
remaining bytes, optionally selects the parse function of the next
layer. -/
def Binding (α : Type) : Type :=
  α → List Nat → Option (List Nat → Except LayerError (List Nat × α))

/-- The dispatch registry: a runtime type tag for each layer value
(modelling `TypeId`), and the per-tag insertion-ordered callback lists
(modelling the `HashMap<TypeId, Vec<LayerBinding>>`; an unbound tag has
the empty list). -/
structure PacketParser (α : Type) where
  tagOf : α → Nat
  layer_bindings : Nat → List (Binding α)

/-- `PacketParser::bind_layer`: push a callback onto the list of its
source type's tag. -/
def PacketParser.bind_layer {α : Type} (p : PacketParser α) (t : Nat)
    (f : Binding α) : PacketParser α :=
  { p with
    layer_bindings := fun t' =>
      if t' = t then p.layer_bindings t' ++ [f] else p.layer_bindings t' }

/-- The labelled inner loop of `parse_packet`: walk the callbacks in
reverse insertion order, first `Some` wins. -/
def findNextLayer {α : Type} (callbacks : List (Binding α)) (current : α)
    (rest : List Nat) :
    Option (List Nat → Except LayerError (List Nat × α)) :=
  callbacks.reverse.findSome? (fun cb => cb current rest)

/-- The `loop` of `parse_packet`.  The Rust loop has no termination
guarantee (a parse function may consume nothing), so the model takes a
fuel bound; `none` models non-termination and is unreachable whenever
every selected parse function consumes at least one byte. -/
def parsePacketLoop {α : Type} (p : PacketParser α) :
    Nat → α → List Nat → List α →
    Option (Except PacketError (List Nat × List α))
  | 0, _, _, _ => none
  | fuel + 1, current, rest, layers =>
    if rest.isEmpty then some (.ok (rest, layers ++ [current]))
    else
      match findNextLayer (p.layer_bindings (p.tagOf current)) current rest with
      | none => some (.ok (rest, layers ++ [current]))
      | some next_layer_fn =>
        match next_layer_fn rest with
        | .error e => some (.error (PacketError.ofLayerError e))
        | .ok (new_rest, next_layer) =>
          parsePacketLoop p fuel next_layer new_rest (layers ++ [current])

/-- `PacketParser::parse_packet<T>`: parse the start layer with `T`'s
parse function, then run the dispatch walk. -/
def PacketParser.parse_packet {α : Type} (p : PacketParser α)
    (startParse : List Nat → Except LayerError (List Nat × α))
    (input : List Nat) (fuel : Nat) :
    Option (Except PacketError (List Nat × List α)) :=
  match startParse input with
  | .error e => some (.error (PacketError.ofLayerError e))
  | .ok (rest, layer) => parsePacketLoop p fuel layer rest []

/-- Decidable equality of `Except` results, for concrete evaluation. -/
instance exceptDecEq {ε α : Type} [DecidableEq ε] [DecidableEq α] :
    DecidableEq (Except ε α)
  | .error x, .error y =>
    if h : x = y then .isTrue (by rw [h]) else .isFalse (by simp [h])
  | .error _, .ok _ => .isFalse (by simp)
  | .ok _, .error _ => .isFalse (by simp)
  | .ok x, .ok y =>
    if h : x = y then .isTrue (by rw [h]) else .isFalse (by simp [h])

/-- A well-formed byte buffer: every element is a byte. -/
def bytesWF (b : List Nat) : Prop := ∀ x ∈ b, x < 256

instance (b : List Nat) : Decidable (bytesWF b) := by
  unfold bytesWF; infer_instance

/-- The tcp value after step (i) of `Tcp::finalize`: options padded with
`pad_amt = 4 * ((len + 3) / 4) - len` EOL options. -/
def Tcp.padded (t : Tcp) : Tcp :=
  { t with options := t.options ++
      List.replicate (4 * (((Tcp.to_bytes t).length + 3) / 4) -
        (Tcp.to_bytes t).length) TcpOption.EOL }

/-- The `tcp_header` buffer of `Tcp::finalize`: the padded value
serialized (still carrying the pre-finalize `offset` field) with the
checksum bytes 16-17 cleared. -/
def Tcp.checksumHeader (t : Tcp) : List Nat :=
  ((Tcp.to_bytes t.padded).set 16 0).set 17 0

/-- Modelled from the spec of claim C2: the `tcp_header` buffer as the
claim's words "(the header reflecting steps i-ii)" would have it, i.e.
serialized after both the option padding and the offset update, with the
checksum bytes cleared.  The source instead serializes the header before
the offset update; this definition exists to be compared against
`Tcp.checksumHeader`. -/
def Tcp.checksumHeaderPost (t : Tcp) : List Nat :=
  ((Tcp.to_bytes { t.padded with offset := (Tcp.checksumHeader t).length / 4 }).set 16 0).set 17 0

theorem beBytes_length (n v : Nat) : (beBytes n v).length = n := by
  induction n generalizing v with
  | zero => rfl
  | succ n ih => simp [beBytes, ih]

theorem beBytes_lt (n v : Nat) : ∀ x ∈ beBytes n v, x < 256 := by
  induction n generalizing v with
  | zero => simp [beBytes]
  | succ n ih =>
    intro x hx
    simp only [beBytes, List.mem_append, List.mem_singleton] at hx
    rcases hx with h | h
    · exact ih _ _ h
    · omega

theorem beVal_beBytes (n v : Nat) : beVal (beBytes n v) = v % 256 ^ n := by
  induction n generalizing v with
  | zero => simp [beBytes, beVal, Nat.mod_one]
  | succ n ih =>
    have h := ih (v / 256)
    simp only [beBytes, beVal, List.foldl_append, List.foldl_cons, List.foldl_nil] at *
    rw [h, Nat.pow_succ, mul_comm (256 ^ n) 256, Nat.mod_mul]
    omega

theorem readBE_beBytes (n v : Nat) (r : List Nat) (h : v < 256 ^ n) :
    readBE n (beBytes n v ++ r) = .ok (v, r) := by
  have hl := beBytes_length n v
  simp only [readBE, List.length_append, hl]
  rw [if_neg (by omega), List.take_left' hl, List.drop_left' hl]
  simp [beVal_beBytes, Nat.mod_eq_of_lt h]

/-- `readBE` on a bare encoded value consumes it entirely. -/
theorem readBE_beBytes_nil (n v : Nat) (h : v < 256 ^ n) :
    readBE n (beBytes n v) = .ok (v, []) := by
  have hx := readBE_beBytes n v [] h
  rwa [List.append_nil] at hx

/-- Encoding is the inverse of decoding on in-range byte lists. -/
theorem beBytes_beVal (l : List Nat) (h : ∀ x ∈ l, x < 256) (n : Nat)
    (hn : l.length = n) : beBytes n (beVal l) = l := by
  subst hn
  induction l using List.reverseRecOn with
  | nil => rfl
  | append_singleton l a ih =>
    have ha : a < 256 := h a (by simp)
    have hl : ∀ x ∈ l, x < 256 := fun x hx => h x (by simp [hx])
    have ihl := ih hl
    simp only [List.length_append, List.length_singleton, beVal, List.foldl_append,
      List.foldl_cons, List.foldl_nil, beBytes]
    have h1 : (List.foldl (fun a b => a * 256 + b) 0 l * 256 + a) / 256 =
        List.foldl (fun a b => a * 256 + b) 0 l := by omega
    have h2 : (List.foldl (fun a b => a * 256 + b) 0 l * 256 + a) % 256 = a := by omega
    rw [h1, h2]
    simp only [beVal] at ihl
    rw [ihl]

theorem beVal_lt (l : List Nat) (h : ∀ x ∈ l, x < 256) : beVal l < 256 ^ l.length := by
  induction l using List.reverseRecOn with
  | nil => simp [beVal]
  | append_singleton l a ih =>
    have ha : a < 256 := h a (by simp)
    have ih' := ih (fun x hx => h x (by simp [hx]))
    simp only [beVal, List.foldl_append, List.foldl_cons, List.foldl_nil,
      List.length_append, List.length_singleton, Nat.pow_succ] at *
    nlinarith

/-- `readBE` consumes a prefix that re-encodes to the same bytes. -/
theorem readBE_ok (n : Nat) (bs : List Nat) (v : Nat) (rest : List Nat)
    (hwf : ∀ x ∈ bs, x < 256) (h : readBE n bs = .ok (v, rest)) :
    beBytes n v ++ rest = bs ∧ v < 256 ^ n := by
  simp only [readBE] at h
  split at h
  · exact absurd h (by simp)
  · rename_i hlen
    have hte : bs.take n ++ bs.drop n = bs := List.take_append_drop n bs
    have htl : (bs.take n).length = n := by
      rw [List.length_take]; omega
    have hwt : ∀ x ∈ bs.take n, x < 256 := fun x hx => hwf x (List.mem_of_mem_take hx)
    simp only [Except.ok.injEq, Prod.mk.injEq] at h
    obtain ⟨hv, hr⟩ := h
    refine ⟨?_, ?_⟩
    · rw [← hv, beBytes_beVal _ hwt n htl, ← hr]
      exact hte
    · have hb := beVal_lt _ hwt
      rw [htl] at hb
      rw [← hv]
      exact hb

theorem checksumLoop_eq_foldl (l : List Nat) :
    ∀ acc, checksumLoop acc l = (specWords l).foldl (fun a w => (a + w) % 4294967296) acc := by
  induction l using specWords.induct with
  | case1 a b rest ih => intro acc; simp [checksumLoop, specWords, ih]
  | case2 a => intro acc; simp [checksumLoop, specWords]
  | case3 => intro acc; simp [checksumLoop, specWords]

theorem checksumLoop_zeros : ∀ n, checksumLoop 0 (List.replicate n 0) = 0
  | 0 => rfl
  | 1 => rfl
  | n + 2 => by
    have h := checksumLoop_zeros n
    simp only [List.replicate_succ, checksumLoop]
    simpa using h

theorem ipProtocol_toNat_ofNat (v : Nat) : (IpProtocol.ofNat v).toNat = v := by
  have hmem : ∀ pr ∈ ipProtocolIds, IpProtocol.toNat pr.2 = pr.1 := by decide
  unfold IpProtocol.ofNat
  cases h : ipProtocolIds.lookup v with
  | none => simp [IpProtocol.toNat]
  | some p =>
    have hm : (v, p) ∈ ipProtocolIds := by
      rw [List.lookup_eq_some_iff] at h
      obtain ⟨l1, l2, heq, h2⟩ := h
      rw [heq]; simp
    have := hmem _ hm
    simp only [Option.getD_some]
    rw [this]

theorem ipProtocol_ofNat_canonical (v : Nat) : (IpProtocol.ofNat v).canonical := by
  unfold IpProtocol.canonical
  rw [ipProtocol_toNat_ofNat]

theorem icmpType_toNat_ofNat (v : Nat) : (IcmpType.ofNat v).toNat = v := by
  have hmem : ∀ pr ∈ icmpTypeIds, IcmpType.toNat pr.2 = pr.1 := by decide
  unfold IcmpType.ofNat
  cases h : icmpTypeIds.lookup v with
  | none => simp [IcmpType.toNat]
  | some p =>
    have hm : (v, p) ∈ icmpTypeIds := by
      rw [List.lookup_eq_some_iff] at h
      obtain ⟨l1, l2, heq, h2⟩ := h
      rw [heq]; simp
    have := hmem _ hm
    simp only [Option.getD_some]
    rw [this]

theorem etherType_toNat_ofNat (v : Nat) : (EtherType.ofNat v).toNat = v := by
  have hmem : ∀ pr ∈ etherTypeIds, EtherType.toNat pr.2 = pr.1 := by decide
  unfold EtherType.ofNat
  cases h : etherTypeIds.lookup v with
  | none => simp [EtherType.toNat]
  | some p =>
    have hm : (v, p) ∈ etherTypeIds := by
      rw [List.lookup_eq_some_iff] at h
      obtain ⟨l1, l2, heq, h2⟩ := h
      rw [heq]; simp
    have := hmem _ hm
    simp only [Option.getD_some]
    rw [this]

/- ## Round-trip lemmas for the option codecs -/

theorem bindOk {α β : Type} {x : Except LayerError α} {f : α → Except LayerError β}
    {c : β} (h : x >>= f = .ok c) : ∃ a, x = .ok a ∧ f a = .ok c := by
  cases x with
  | error e => simp [Bind.bind, Except.bind] at h
  | ok a => exact ⟨a, rfl, by simpa [Bind.bind, Except.bind] using h⟩

theorem beBytes_one (v : Nat) : beBytes 1 v = [v % 256] := by
  simp [beBytes]

theorem readBE_one (b : Nat) (r : List Nat) : readBE 1 (b :: r) = .ok (b, r) := by
  simp [readBE, beVal]

/-- `readBE` inversion: the input splits as encoded value plus remainder. -/
theorem readBE_okE (n : Nat) (bs : List Nat) (v : Nat) (rest : List Nat)
    (hwf : ∀ x ∈ bs, x < 256) (h : readBE n bs = .ok (v, rest)) :
    bs = beBytes n v ++ rest ∧ v < 256 ^ n ∧ (∀ x ∈ rest, x < 256) := by
  obtain ⟨h1, h2⟩ := readBE_ok n bs v rest hwf h
  exact ⟨h1.symm, h2, fun x hx => hwf x (by rw [← h1]; exact List.mem_append_right _ hx)⟩

/-- `readBytes` inversion. -/
theorem readBytes_okE (n : Nat) (bs : List Nat) (v rest : List Nat)
    (hwf : ∀ x ∈ bs, x < 256) (h : readBytes n bs = .ok (v, rest)) :
    bs = v ++ rest ∧ v.length = n ∧ (∀ x ∈ rest, x < 256) := by
  simp only [readBytes] at h
  split at h
  · exact absurd h (by simp)
  · rename_i hlen
    simp only [Except.ok.injEq, Prod.mk.injEq] at h
    obtain ⟨hv, hr⟩ := h
    subst hv; subst hr
    refine ⟨(List.take_append_drop n bs).symm, by rw [List.length_take]; omega,
      fun x hx => hwf x (List.mem_of_mem_drop hx)⟩

theorem readBytes_append (n : Nat) (l rest : List Nat) (h : l.length = n) :
    readBytes n (l ++ rest) = .ok (l, rest) := by
  simp only [readBytes, List.length_append]
  rw [if_neg (by omega), List.take_left' h, List.drop_left' h]

/-- Direction 1 for SAck blocks: a successful read splits the buffer into
the re-serialized blocks and the remainder. -/
theorem readSAckData_ok : ∀ (c : Nat) (bs : List Nat) (vs : List SAckData)
    (rest : List Nat), (∀ x ∈ bs, x < 256) →
    readSAckData c bs = .ok (vs, rest) →
    sackBytes vs ++ rest = bs ∧ (∀ x ∈ rest, x < 256) := by
  intro c
  induction c with
  | zero =>
    intro bs vs rest hwf h
    simp only [readSAckData, Except.ok.injEq, Prod.mk.injEq] at h
    obtain ⟨hv, hr⟩ := h
    subst hv; subst hr
    exact ⟨by simp [sackBytes], hwf⟩
  | succ c ih =>
    intro bs vs rest hwf h
    simp only [readSAckData] at h
    obtain ⟨⟨b, r1⟩, hA, h⟩ := bindOk h
    dsimp only at h
    obtain ⟨⟨e, r2⟩, hB, h⟩ := bindOk h
    dsimp only at h
    obtain ⟨⟨vs', r3⟩, hC, h⟩ := bindOk h
    dsimp only at h
    simp only [Except.ok.injEq, Prod.mk.injEq] at h
    obtain ⟨hv, hr⟩ := h
    subst hv; subst hr
    obtain ⟨hA1, hA2, hA3⟩ := readBE_okE 4 bs b r1 hwf hA
    obtain ⟨hB1, hB2, hB3⟩ := readBE_okE 4 r1 e r2 hA3 hB
    obtain ⟨hC1, hC2⟩ := ih r2 vs' r3 hB3 hC
    subst hA1; subst hB1
    refine ⟨?_, hC2⟩
    simp only [sackBytes, List.map_cons, List.flatten_cons, List.append_assoc]
    rw [← hC1]
    simp only [sackBytes]

/-- Direction 2 for SAck blocks. -/
theorem readSAckData_write : ∀ (vs : List SAckData) (rest : List Nat),
    (∀ d ∈ vs, d.begin_ < 4294967296 ∧ d.end_ < 4294967296) →
    readSAckData vs.length (sackBytes vs ++ rest) = .ok (vs, rest) := by
  intro vs
  induction vs with
  | nil => intro rest _; simp [sackBytes, readSAckData]
  | cons d vs ih =>
    intro rest hwf
    have hd := hwf d (by simp)
    have hvs : ∀ x ∈ vs, x.begin_ < 4294967296 ∧ x.end_ < 4294967296 :=
      fun x hx => hwf x (by simp [hx])
    simp only [sackBytes, List.map_cons, List.flatten_cons, List.length_cons,
      readSAckData, List.append_assoc]
    rw [readBE_beBytes 4 d.begin_ _ (by exact_mod_cast hd.1)]
    simp only [Bind.bind, Except.bind]
    rw [readBE_beBytes 4 d.end_ _ (by exact_mod_cast hd.2)]
    dsimp only
    have := ih rest hvs
    simp only [sackBytes] at this
    rw [this]

/-- Every serialized tcp option is at least one byte. -/
theorem tcpOption_write_length (o : TcpOption) : 1 ≤ (TcpOption.write o).length := by
  cases o <;> simp [TcpOption.write]

/-- Direction 1 for one tcp option: a successful read splits the buffer
into the re-serialized option and the remainder. -/
theorem tcpOption_read_ok (bs : List Nat) (o : TcpOption) (rest : List Nat)
    (hwf : ∀ x ∈ bs, x < 256) (h : TcpOption.read bs = .ok (o, rest)) :
    TcpOption.write o ++ rest = bs ∧ (∀ x ∈ rest, x < 256) := by
  cases bs with
  | nil => simp [TcpOption.read] at h
  | cons k r =>
    have hk : k < 256 := hwf k (by simp)
    have hr : ∀ x ∈ r, x < 256 := fun x hx => hwf x (by simp [hx])
    simp only [TcpOption.read] at h
    by_cases h0 : k = 0
    · rw [if_pos h0] at h
      simp only [Except.ok.injEq, Prod.mk.injEq] at h
      obtain ⟨ho, hrest⟩ := h
      subst ho; subst hrest; subst h0
      exact ⟨by simp [TcpOption.write], hr⟩
    rw [if_neg h0] at h
    by_cases h1 : k = 1
    · rw [if_pos h1] at h
      simp only [Except.ok.injEq, Prod.mk.injEq] at h
      obtain ⟨ho, hrest⟩ := h
      subst ho; subst hrest; subst h1
      exact ⟨by simp [TcpOption.write], hr⟩
    rw [if_neg h1] at h
    by_cases h2 : k = 2
    · rw [if_pos h2] at h
      obtain ⟨⟨len, r1⟩, hA, h⟩ := bindOk h
      dsimp only at h
      obtain ⟨⟨v, r2⟩, hB, h⟩ := bindOk h
      dsimp only at h
      simp only [Except.ok.injEq, Prod.mk.injEq] at h
      obtain ⟨ho, hrest⟩ := h
      subst ho; subst hrest
      obtain ⟨hA1, hA2, hA3⟩ := readBE_okE 1 r len r1 hr hA
      obtain ⟨hB1, hB2, hB3⟩ := readBE_okE 2 r1 v r2 hA3 hB
      subst hA1; subst hB1; subst h2
      refine ⟨?_, hB3⟩
      simp [TcpOption.write, beBytes_one, Nat.mod_eq_of_lt (by omega : len < 256)]
    rw [if_neg h2] at h
    by_cases h3 : k = 3
    · rw [if_pos h3] at h
      obtain ⟨⟨len, r1⟩, hA, h⟩ := bindOk h
      dsimp only at h
      obtain ⟨⟨v, r2⟩, hB, h⟩ := bindOk h
      dsimp only at h
      simp only [Except.ok.injEq, Prod.mk.injEq] at h
      obtain ⟨ho, hrest⟩ := h
      subst ho; subst hrest
      obtain ⟨hA1, hA2, hA3⟩ := readBE_okE 1 r len r1 hr hA
      obtain ⟨hB1, hB2, hB3⟩ := readBE_okE 1 r1 v r2 hA3 hB
      subst hA1; subst hB1; subst h3
      refine ⟨?_, hB3⟩
      simp [TcpOption.write, beBytes_one, Nat.mod_eq_of_lt (by omega : len < 256),
        Nat.mod_eq_of_lt (by omega : v < 256)]
    rw [if_neg h3] at h
    by_cases h4 : k = 4
    · rw [if_pos h4] at h
      obtain ⟨⟨len, r1⟩, hA, h⟩ := bindOk h
      dsimp only at h
      simp only [Except.ok.injEq, Prod.mk.injEq] at h
      obtain ⟨ho, hrest⟩ := h
      subst ho; subst hrest
      obtain ⟨hA1, hA2, hA3⟩ := readBE_okE 1 r len r1 hr hA
      subst hA1; subst h4
      refine ⟨?_, hA3⟩
      simp [TcpOption.write, beBytes_one, Nat.mod_eq_of_lt (by omega : len < 256)]
    rw [if_neg h4] at h
    by_cases h5 : k = 5
    · rw [if_pos h5] at h
      obtain ⟨⟨len, r1⟩, hA, h⟩ := bindOk h
      dsimp only at h
      obtain ⟨hA1, hA2, hA3⟩ := readBE_okE 1 r len r1 hr hA
      split at h
      · exact absurd h (by simp)
      obtain ⟨⟨vs, r2⟩, hB, h⟩ := bindOk h
      dsimp only at h
      simp only [Except.ok.injEq, Prod.mk.injEq] at h
      obtain ⟨ho, hrest⟩ := h
      subst ho; subst hrest
      obtain ⟨hB1, hB2⟩ := readSAckData_ok _ r1 vs r2 hA3 hB
      subst hA1; subst h5
      refine ⟨?_, hB2⟩
      rw [← hB1]
      simp [TcpOption.write, beBytes_one, Nat.mod_eq_of_lt (by omega : len < 256)]
    rw [if_neg h5] at h
    by_cases h8 : k = 8
    · rw [if_pos h8] at h
      obtain ⟨⟨len, r1⟩, hA, h⟩ := bindOk h
      dsimp only at h
      obtain ⟨⟨s, r2⟩, hB, h⟩ := bindOk h
      dsimp only at h
      obtain ⟨⟨e, r3⟩, hC, h⟩ := bindOk h
      dsimp only at h
      simp only [Except.ok.injEq, Prod.mk.injEq] at h
      obtain ⟨ho, hrest⟩ := h
      subst ho; subst hrest
      obtain ⟨hA1, hA2, hA3⟩ := readBE_okE 1 r len r1 hr hA
      obtain ⟨hB1, hB2, hB3⟩ := readBE_okE 4 r1 s r2 hA3 hB
      obtain ⟨hC1, hC2, hC3⟩ := readBE_okE 4 r2 e r3 hB3 hC
      subst hA1; subst hB1; subst hC1; subst h8
      refine ⟨?_, hC3⟩
      simp [TcpOption.write, beBytes_one, Nat.mod_eq_of_lt (by omega : len < 256)]
    rw [if_neg h8] at h
    obtain ⟨⟨len, r1⟩, hA, h⟩ := bindOk h
    dsimp only at h
    obtain ⟨hA1, hA2, hA3⟩ := readBE_okE 1 r len r1 hr hA
    split at h
    · exact absurd h (by simp)
    obtain ⟨⟨v, r2⟩, hB, h⟩ := bindOk h
    dsimp only at h
    simp only [Except.ok.injEq, Prod.mk.injEq] at h
    obtain ⟨ho, hrest⟩ := h
    subst ho; subst hrest
    obtain ⟨hB1, hB2, hB3⟩ := readBytes_okE _ r1 v r2 hA3 hB
    subst hA1; subst hB1
    refine ⟨?_, hB3⟩
    simp [TcpOption.write, beBytes_one, Nat.mod_eq_of_lt (by omega : len < 256),
      Nat.mod_eq_of_lt hk]

/-- Direction 2 for one tcp option: reading back a serialized
representable option yields it unchanged. -/
theorem tcpOption_write_read (o : TcpOption) (rest : List Nat) (hwf : o.wf) :
    TcpOption.read (TcpOption.write o ++ rest) = .ok (o, rest) := by
  cases o with
  | EOL => simp [TcpOption.write, TcpOption.read]
  | NOP => simp [TcpOption.write, TcpOption.read]
  | MSS len v =>
    obtain ⟨hl, hv⟩ := hwf
    simp only [TcpOption.write, List.cons_append, TcpOption.read]
    norm_num
    rw [readBE_one]
    simp only [Bind.bind, Except.bind]
    rw [readBE_beBytes 2 v _ (by exact_mod_cast hv)]
    simp [Nat.mod_eq_of_lt hl]
  | WindowScale len v =>
    obtain ⟨hl, hv⟩ := hwf
    simp only [TcpOption.write, List.cons_append, TcpOption.read]
    norm_num
    rw [readBE_one]
    simp only [Bind.bind, Except.bind]
    rw [readBE_beBytes 1 v _ (by simpa using hv)]
    simp [Nat.mod_eq_of_lt hl]
  | SAckPermitted len =>
    have hl : len < 256 := hwf
    simp only [TcpOption.write, List.cons_append, TcpOption.read]
    norm_num
    rw [readBE_one]
    simp [Bind.bind, Except.bind, Nat.mod_eq_of_lt hl]
  | SAck len vs =>
    obtain ⟨hl, hge, hcount, hvs⟩ := hwf
    simp only [TcpOption.write, List.cons_append, TcpOption.read]
    norm_num
    rw [Nat.mod_eq_of_lt hl, readBE_one]
    simp only [Bind.bind, Except.bind]
    rw [if_neg (by omega)]
    rw [hcount, readSAckData_write vs rest hvs]
  | Timestamp len v =>
    obtain ⟨hl, hs, he⟩ := hwf
    simp only [TcpOption.write, List.cons_append, List.append_assoc, TcpOption.read]
    norm_num
    rw [readBE_one]
    simp only [Bind.bind, Except.bind]
    rw [readBE_beBytes 4 v.start _ (by exact_mod_cast hs)]
    dsimp only
    rw [readBE_beBytes 4 v.end_ _ (by exact_mod_cast he)]
    simp [Nat.mod_eq_of_lt hl]
  | Unknown k len v =>
    obtain ⟨hk, hmem, hl, hge, hvl⟩ := hwf
    simp only [List.mem_cons, List.mem_singleton, List.not_mem_nil] at hmem
    push_neg at hmem
    obtain ⟨n0, n1, n2, n3, n4, n5, n8, _⟩ := hmem
    simp only [TcpOption.write, List.cons_append, TcpOption.read]
    rw [Nat.mod_eq_of_lt hk, Nat.mod_eq_of_lt hl]
    rw [if_neg n0, if_neg n1, if_neg n2, if_neg n3, if_neg n4, if_neg n5,
      if_neg n8]
    rw [readBE_one]
    simp only [Bind.bind, Except.bind]
    rw [if_neg (by omega)]
    rw [readBytes_append _ _ _ (by omega)]

/-- Direction 1 for the tcp option-region loop. -/
theorem readTcpOptionsLoop_ok : ∀ (fuel : Nat) (region : List Nat)
    (opts : List TcpOption), (∀ x ∈ region, x < 256) →
    readTcpOptionsLoop fuel region = .ok opts →
    tcpOptionsBytes opts = region := by
  intro fuel
  induction fuel with
  | zero =>
    intro region opts hwf h
    cases region with
    | nil =>
      simp only [readTcpOptionsLoop, Except.ok.injEq] at h
      subst h; rfl
    | cons b r => simp [readTcpOptionsLoop] at h
  | succ fuel ih =>
    intro region opts hwf h
    cases region with
    | nil =>
      simp only [readTcpOptionsLoop, Except.ok.injEq] at h
      subst h; rfl
    | cons b r =>
      simp only [readTcpOptionsLoop] at h
      cases hx : TcpOption.read (b :: r) with
      | error e => rw [hx] at h; exact absurd h (by simp)
      | ok p =>
        obtain ⟨o, orest⟩ := p
        rw [hx] at h
        dsimp only at h
        cases hy : readTcpOptionsLoop fuel orest with
        | error e => rw [hy] at h; exact absurd h (by simp)
        | ok os =>
          rw [hy] at h
          simp only [Except.ok.injEq] at h
          subst h
          obtain ⟨h1, h2⟩ := tcpOption_read_ok (b :: r) o orest hwf hx
          have h3 := ih orest os h2 hy
          simp only [tcpOptionsBytes, List.map_cons, List.flatten_cons]
          simp only [tcpOptionsBytes] at h3
          rw [h3, h1]

/-- An empty serialized options vector is the empty vector. -/
theorem tcpOptionsBytes_nil (opts : List TcpOption)
    (h : tcpOptionsBytes opts = []) : opts = [] := by
  cases opts with
  | nil => rfl
  | cons o os =>
    exfalso
    have h1 := tcpOption_write_length o
    have h2 : (tcpOptionsBytes (o :: os)).length = 0 := by rw [h]; rfl
    simp only [tcpOptionsBytes, List.map_cons, List.flatten_cons,
      List.length_append] at h2
    omega

/-- Direction 2 for the tcp option-region loop. -/
theorem readTcpOptionsLoop_write : ∀ (opts : List TcpOption) (fuel : Nat),
    (∀ o ∈ opts, o.wf) → (tcpOptionsBytes opts).length ≤ fuel →
    readTcpOptionsLoop fuel (tcpOptionsBytes opts) = .ok opts := by
  intro opts
  induction opts with
  | nil =>
    intro fuel _ _
    simp [tcpOptionsBytes, readTcpOptionsLoop]
  | cons o os ih =>
    intro fuel hwf hlen
    have hwlen := tcpOption_write_length o
    cases hfw : TcpOption.write o with
    | nil => rw [hfw] at hwlen; simp at hwlen
    | cons w0 wrest =>
      have hbytes : tcpOptionsBytes (o :: os) = w0 :: (wrest ++ tcpOptionsBytes os) := by
        simp [tcpOptionsBytes, hfw]
      cases fuel with
      | zero =>
        exfalso
        rw [hbytes] at hlen
        simp at hlen
      | succ f =>
        rw [hbytes]
        simp only [readTcpOptionsLoop]
        have hread : TcpOption.read (w0 :: (wrest ++ tcpOptionsBytes os)) =
            .ok (o, tcpOptionsBytes os) := by
          have := tcpOption_write_read o (tcpOptionsBytes os) (hwf o (by simp))
          rwa [hfw, List.cons_append] at this
        rw [hread]
        dsimp only
        have hf : (tcpOptionsBytes os).length ≤ f := by
          rw [hbytes] at hlen
          simp only [List.length_cons, List.length_append] at hlen
          omega
        rw [ih f (fun x hx => hwf x (by simp [hx])) hf]

/-- Every serialized ipv4 option is at least one byte. -/
theorem ipv4Option_write_length (o : Ipv4Option) : 1 ≤ (Ipv4Option.write o).length := by
  obtain ⟨c, cl, t⟩ := o
  cases t <;> simp [Ipv4Option.write]

/-- Direction 1 for one ipv4 option. -/
theorem ipv4Option_read_ok (bs : List Nat) (o : Ipv4Option) (rest : List Nat)
    (hwf : ∀ x ∈ bs, x < 256) (h : Ipv4Option.read bs = .ok (o, rest)) :
    Ipv4Option.write o ++ rest = bs ∧ (∀ x ∈ rest, x < 256) := by
  cases bs with
  | nil => simp [Ipv4Option.read] at h
  | cons b r =>
    have hb : b < 256 := hwf b (by simp)
    have hr : ∀ x ∈ r, x < 256 := fun x hx => hwf x (by simp [hx])
    simp only [Ipv4Option.read] at h
    by_cases h0 : b % 32 = 0
    · rw [if_pos h0] at h
      simp only [Except.ok.injEq, Prod.mk.injEq] at h
      obtain ⟨ho, hrest⟩ := h
      subst ho; subst hrest
      refine ⟨?_, hr⟩
      simp only [Ipv4Option.write, List.cons_append, List.nil_append]
      congr 1
      omega
    rw [if_neg h0] at h
    by_cases h1 : b % 32 = 1
    · rw [if_pos h1] at h
      simp only [Except.ok.injEq, Prod.mk.injEq] at h
      obtain ⟨ho, hrest⟩ := h
      subst ho; subst hrest
      refine ⟨?_, hr⟩
      simp only [Ipv4Option.write, List.cons_append, List.nil_append]
      congr 1
      omega
    rw [if_neg h1] at h
    cases hx : readBE 1 r with
    | error e => rw [hx] at h; exact absurd h (by simp)
    | ok p =>
      obtain ⟨len, r1⟩ := p
      rw [hx] at h
      dsimp only at h
      obtain ⟨hA1, hA2, hA3⟩ := readBE_okE 1 r len r1 hr hx
      split at h
      · exact absurd h (by simp)
      cases hy : readBytes (len - 2) r1 with
      | error e => rw [hy] at h; exact absurd h (by simp)
      | ok q =>
        obtain ⟨v, r2⟩ := q
        rw [hy] at h
        dsimp only at h
        simp only [Except.ok.injEq, Prod.mk.injEq] at h
        obtain ⟨ho, hrest⟩ := h
        subst ho; subst hrest
        obtain ⟨hB1, hB2, hB3⟩ := readBytes_okE (len - 2) r1 v r2 hA3 hy
        subst hA1; subst hB1
        refine ⟨?_, hB3⟩
        simp only [Ipv4Option.write, List.cons_append, beBytes_one,
          Nat.mod_eq_of_lt (by omega : len < 256)]
        congr 1
        omega

/-- Direction 2 for one ipv4 option. -/
theorem ipv4Option_write_read (o : Ipv4Option) (rest : List Nat) (hwf : o.wf) :
    Ipv4Option.read (Ipv4Option.write o ++ rest) = .ok (o, rest) := by
  obtain ⟨copied, class_, opt⟩ := o
  obtain ⟨hc, hcl, hopt⟩ := hwf
  simp only at hc hcl
  cases opt with
  | EOOL =>
    simp only [Ipv4Option.write, List.cons_append, List.nil_append, Ipv4Option.read]
    rw [Nat.mod_eq_of_lt hc, Nat.mod_eq_of_lt hcl]
    rw [if_pos (by omega)]
    simp only [Except.ok.injEq, Prod.mk.injEq, Ipv4Option.mk.injEq]
    exact ⟨⟨by omega, by omega, by trivial⟩, by trivial⟩
  | NOP =>
    simp only [Ipv4Option.write, List.cons_append, List.nil_append, Ipv4Option.read]
    rw [Nat.mod_eq_of_lt hc, Nat.mod_eq_of_lt hcl]
    rw [if_neg (by omega), if_pos (by omega)]
    simp only [Except.ok.injEq, Prod.mk.injEq, Ipv4Option.mk.injEq]
    exact ⟨⟨by omega, by omega, by trivial⟩, by trivial⟩
  | Unknown ty len v =>
    obtain ⟨ht2, ht32, hl, hge, hvl⟩ := hopt
    simp only [Ipv4Option.write, List.cons_append, Ipv4Option.read]
    rw [Nat.mod_eq_of_lt hc, Nat.mod_eq_of_lt hcl, Nat.mod_eq_of_lt ht32,
      Nat.mod_eq_of_lt hl]
    rw [if_neg (by omega), if_neg (by omega), readBE_one]
    dsimp only
    rw [if_neg (by omega), readBytes_append _ _ _ (by omega)]
    dsimp only
    simp only [Except.ok.injEq, Prod.mk.injEq, Ipv4Option.mk.injEq]
    refine ⟨⟨by omega, by omega, ?_⟩, by trivial⟩
    simp only [Ipv4OptionType.Unknown.injEq]
    exact ⟨by omega, by trivial, by trivial⟩

/-- Direction 1 for the ipv4 option-region loop. -/
theorem readIpv4OptionsLoop_ok : ∀ (fuel : Nat) (region : List Nat)
    (opts : List Ipv4Option), (∀ x ∈ region, x < 256) →
    readIpv4OptionsLoop fuel region = .ok opts →
    ipv4OptionsBytes opts = region := by
  intro fuel
  induction fuel with
  | zero =>
    intro region opts hwf h
    cases region with
    | nil =>
      simp only [readIpv4OptionsLoop, Except.ok.injEq] at h
      subst h; rfl
    | cons b r => simp [readIpv4OptionsLoop] at h
  | succ fuel ih =>
    intro region opts hwf h
    cases region with
    | nil =>
      simp only [readIpv4OptionsLoop, Except.ok.injEq] at h
      subst h; rfl
    | cons b r =>
      simp only [readIpv4OptionsLoop] at h
      cases hx : Ipv4Option.read (b :: r) with
      | error e => rw [hx] at h; exact absurd h (by simp)
      | ok p =>
        obtain ⟨o, orest⟩ := p
        rw [hx] at h
        dsimp only at h
        cases hy : readIpv4OptionsLoop fuel orest with
        | error e => rw [hy] at h; exact absurd h (by simp)
        | ok os =>
          rw [hy] at h
          simp only [Except.ok.injEq] at h
          subst h
          obtain ⟨h1, h2⟩ := ipv4Option_read_ok (b :: r) o orest hwf hx
          have h3 := ih orest os h2 hy
          simp only [ipv4OptionsBytes, List.map_cons, List.flatten_cons]
          simp only [ipv4OptionsBytes] at h3
          rw [h3, h1]

/-- An empty serialized ipv4 options vector is the empty vector. -/
theorem ipv4OptionsBytes_nil (opts : List Ipv4Option)
    (h : ipv4OptionsBytes opts = []) : opts = [] := by
  cases opts with
  | nil => rfl
  | cons o os =>
    exfalso
    have h1 := ipv4Option_write_length o
    have h2 : (ipv4OptionsBytes (o :: os)).length = 0 := by rw [h]; rfl
    simp only [ipv4OptionsBytes, List.map_cons, List.flatten_cons,
      List.length_append] at h2
    omega

/-- Direction 2 for the ipv4 option-region loop. -/
theorem readIpv4OptionsLoop_write : ∀ (opts : List Ipv4Option) (fuel : Nat),
    (∀ o ∈ opts, o.wf) → (ipv4OptionsBytes opts).length ≤ fuel →
    readIpv4OptionsLoop fuel (ipv4OptionsBytes opts) = .ok opts := by
  intro opts
  induction opts with
  | nil =>
    intro fuel _ _
    simp [ipv4OptionsBytes, readIpv4OptionsLoop]
  | cons o os ih =>
    intro fuel hwf hlen
    have hwlen := ipv4Option_write_length o
    cases hfw : Ipv4Option.write o with
    | nil => rw [hfw] at hwlen; simp at hwlen
    | cons w0 wrest =>
      have hbytes : ipv4OptionsBytes (o :: os) = w0 :: (wrest ++ ipv4OptionsBytes os) := by
        simp [ipv4OptionsBytes, hfw]
      cases fuel with
      | zero =>
        exfalso
        rw [hbytes] at hlen
        simp at hlen
      | succ f =>
        rw [hbytes]
        simp only [readIpv4OptionsLoop]
        have hread : Ipv4Option.read (w0 :: (wrest ++ ipv4OptionsBytes os)) =
            .ok (o, ipv4OptionsBytes os) := by
          have := ipv4Option_write_read o (ipv4OptionsBytes os) (hwf o (by simp))
          rwa [hfw, List.cons_append] at this
        rw [hread]
        dsimp only
        have hf : (ipv4OptionsBytes os).length ≤ f := by
          rw [hbytes] at hlen
          simp only [List.length_cons, List.length_append] at hlen
          omega
        rw [ih f (fun x hx => hwf x (by simp [hx])) hf]

/-- Direction 1 for `Tcp::read_options`. -/
theorem tcp_read_options_ok (offset : Nat) (r rest : List Nat)
    (opts : List TcpOption) (hwf : ∀ x ∈ r, x < 256)
    (h : Tcp.read_options offset r = .ok (rest, opts)) :
    tcpOptionsBytes opts ++ rest = r ∧
    (tcpOptionsBytes opts).length = (offset - 5) * 4 ∧ 5 ≤ offset ∧
    (∀ x ∈ rest, x < 256) := by
  simp only [Tcp.read_options] at h
  split at h
  · exact absurd h (by simp)
  rename_i hcond
  push_neg at hcond
  obtain ⟨hc5, _⟩ := hcond
  split at h
  · rename_i h0
    simp only [Except.ok.injEq, Prod.mk.injEq] at h
    obtain ⟨hr, ho⟩ := h
    subst hr; subst ho
    exact ⟨by simp [tcpOptionsBytes], by simp [tcpOptionsBytes]; omega, by omega, hwf⟩
  rename_i h0
  split at h
  · exact absurd h (by simp)
  rename_i hlen
  push_neg at hlen
  cases hx : readTcpOptionsLoop ((r.take ((offset - 5) * 4)).length)
      (r.take ((offset - 5) * 4)) with
  | error e => rw [hx] at h; exact absurd h (by simp)
  | ok os =>
    rw [hx] at h
    simp only [Except.ok.injEq, Prod.mk.injEq] at h
    obtain ⟨hr, ho⟩ := h
    subst hr; subst ho
    have hwt : ∀ x ∈ r.take ((offset - 5) * 4), x < 256 :=
      fun x hx => hwf x (List.mem_of_mem_take hx)
    have hb := readTcpOptionsLoop_ok _ _ _ hwt hx
    refine ⟨?_, ?_, by omega, fun x hx => hwf x (List.mem_of_mem_drop hx)⟩
    · rw [hb]; exact List.take_append_drop _ r
    · rw [hb, List.length_take]; omega

/-- Direction 2 for `Tcp::read_options`. -/
theorem tcp_read_options_write (offset : Nat) (opts : List TcpOption)
    (h5 : 5 ≤ offset) (h16 : offset < 16) (hwf : ∀ o ∈ opts, o.wf)
    (hlen : (tcpOptionsBytes opts).length = (offset - 5) * 4) :
    Tcp.read_options offset (tcpOptionsBytes opts) = .ok ([], opts) := by
  simp only [Tcp.read_options]
  rw [if_neg (by omega)]
  by_cases h0 : (offset - 5) * 4 = 0
  · rw [if_pos h0]
    have hnil : tcpOptionsBytes opts = [] :=
      List.eq_nil_of_length_eq_zero (by omega)
    have := tcpOptionsBytes_nil opts hnil
    subst this
    simp [tcpOptionsBytes]
  · rw [if_neg h0, if_neg (by omega)]
    rw [← hlen, List.take_length, List.drop_length]
    rw [readTcpOptionsLoop_write opts _ hwf (le_refl _)]

/-- Direction 1 for `Ipv4::read_options`. -/
theorem ipv4_read_options_ok (ihl : Nat) (r rest : List Nat)
    (opts : List Ipv4Option) (hwf : ∀ x ∈ r, x < 256)
    (h : Ipv4.read_options ihl r = .ok (rest, opts)) :
    ipv4OptionsBytes opts ++ rest = r ∧ (∀ x ∈ rest, x < 256) ∧
    (if ihl ≤ 5 then opts = []
     else (ipv4OptionsBytes opts).length = (ihl - 5) * 4) := by
  simp only [Ipv4.read_options] at h
  split at h
  · rename_i hgt
    split at h
    · exact absurd h (by simp)
    rename_i hlen
    push_neg at hlen
    cases hx : readIpv4OptionsLoop ((r.take ((ihl - 5) * 4)).length)
        (r.take ((ihl - 5) * 4)) with
    | error e => rw [hx] at h; exact absurd h (by simp)
    | ok os =>
      rw [hx] at h
      simp only [Except.ok.injEq, Prod.mk.injEq] at h
      obtain ⟨hr, ho⟩ := h
      subst hr; subst ho
      have hwt : ∀ x ∈ r.take ((ihl - 5) * 4), x < 256 :=
        fun x hx => hwf x (List.mem_of_mem_take hx)
      have hb := readIpv4OptionsLoop_ok _ _ _ hwt hx
      refine ⟨?_, fun x hx => hwf x (List.mem_of_mem_drop hx), ?_⟩
      · rw [hb]; exact List.take_append_drop _ r
      · rw [if_neg (by omega), hb, List.length_take]; omega
  · rename_i hle
    simp only [Except.ok.injEq, Prod.mk.injEq] at h
    obtain ⟨hr, ho⟩ := h
    subst hr; subst ho
    exact ⟨by simp [ipv4OptionsBytes], hwf, by rw [if_pos (by omega)]⟩

/-- Direction 2 for `Ipv4::read_options`. -/
theorem ipv4_read_options_write (ihl : Nat) (opts : List Ipv4Option)
    (hwf : ∀ o ∈ opts, o.wf)
    (hcond : if ihl ≤ 5 then opts = []
             else (ipv4OptionsBytes opts).length = (ihl - 5) * 4) :
    Ipv4.read_options ihl (ipv4OptionsBytes opts) = .ok ([], opts) := by
  simp only [Ipv4.read_options]
  by_cases hgt : ihl > 5
  · rw [if_pos hgt]
    rw [if_neg (by omega)] at hcond
    rw [if_neg (by omega)]
    rw [← hcond, List.take_length, List.drop_length]
    rw [readIpv4OptionsLoop_write opts _ hwf (le_refl _)]
  · rw [if_neg hgt]
    rw [if_pos (by omega)] at hcond
    subst hcond
    simp [ipv4OptionsBytes]

/-- Recomposition of tcp header byte 12 from its bit fields. -/
theorem tcp_byte12_split (b : Nat) (h : b < 256) :
    b / 16 % 16 * 16 + b / 2 % 8 * 2 + b % 2 = b := by
  omega

/-- Recomposition of tcp header byte 13 from its bit fields. -/
theorem tcp_byte13_split (b : Nat) (h : b < 256) :
    b / 128 % 2 * 128 + b / 64 % 2 * 64 + b / 32 % 2 * 32 +
    b / 16 % 2 * 16 + b / 8 % 2 * 8 + b / 4 % 2 * 4 +
    b / 2 % 2 * 2 + b % 2 = b := by
  omega

/-- Direction 1 for the tcp codec: serializing a parsed value reproduces
exactly the consumed prefix. -/
theorem tcp_parse_ok (b rest : List Nat) (t : Tcp)
    (hwf : ∀ x ∈ b, x < 256) (h : Tcp.parse b = .ok (rest, t)) :
    Tcp.to_bytes t ++ rest = b := by
  simp only [Tcp.parse] at h
  obtain ⟨⟨sport, r1⟩, e1, h⟩ := bindOk h
  dsimp only at h
  obtain ⟨⟨dport, r2⟩, e2, h⟩ := bindOk h
  dsimp only at h
  obtain ⟨⟨seq, r3⟩, e3, h⟩ := bindOk h
  dsimp only at h
  obtain ⟨⟨ackn, r4⟩, e4, h⟩ := bindOk h
  dsimp only at h
  obtain ⟨⟨b12, r5⟩, e5, h⟩ := bindOk h
  dsimp only at h
  obtain ⟨⟨b13, r6⟩, e6, h⟩ := bindOk h
  dsimp only at h
  obtain ⟨⟨window, r7⟩, e7, h⟩ := bindOk h
  dsimp only at h
  obtain ⟨⟨ck, r8⟩, e8, h⟩ := bindOk h
  dsimp only at h
  obtain ⟨⟨urgptr, r9⟩, e9, h⟩ := bindOk h
  dsimp only at h
  obtain ⟨⟨rrest, opts⟩, e10, h⟩ := bindOk h
  dsimp only at h
  simp only [Except.ok.injEq, Prod.mk.injEq] at h
  obtain ⟨hrest, ht⟩ := h
  subst hrest; subst ht
  obtain ⟨q1, b1, w1⟩ := readBE_okE 2 b sport r1 hwf e1
  obtain ⟨q2, b2, w2⟩ := readBE_okE 2 r1 dport r2 w1 e2
  obtain ⟨q3, b3, w3⟩ := readBE_okE 4 r2 seq r3 w2 e3
  obtain ⟨q4, b4, w4⟩ := readBE_okE 4 r3 ackn r4 w3 e4
  obtain ⟨q5, b5, w5⟩ := readBE_okE 1 r4 b12 r5 w4 e5
  obtain ⟨q6, b6, w6⟩ := readBE_okE 1 r5 b13 r6 w5 e6
  obtain ⟨q7, b7, w7⟩ := readBE_okE 2 r6 window r7 w6 e7
  obtain ⟨q8, b8, w8⟩ := readBE_okE 2 r7 ck r8 w7 e8
  obtain ⟨q9, b9, w9⟩ := readBE_okE 2 r8 urgptr r9 w8 e9
  obtain ⟨q10, _, _, _⟩ := tcp_read_options_ok (b12 / 16) r9 rrest opts w9 e10
  subst q1; subst q2; subst q3; subst q4; subst q5; subst q6; subst q7
  subst q8; subst q9
  simp only [Tcp.to_bytes]
  have hb12 : b12 < 256 := by simpa using b5
  have hb13 : b13 < 256 := by simpa using b6
  have h12 := tcp_byte12_split b12 hb12
  have h13 := tcp_byte13_split b13 hb13
  simp only [beBytes_one, Nat.mod_mod, List.append_assoc]
  rw [h12, h13, ← q10, Nat.mod_eq_of_lt hb12, Nat.mod_eq_of_lt hb13]

/-- Field recovery from tcp header byte 12. -/
theorem tcp_byte12_recover (o r n : Nat) (ho : o < 16) (hr : r < 8) (hn : n < 2) :
    (o % 16 * 16 + r % 8 * 2 + n % 2) / 16 = o ∧
    (o % 16 * 16 + r % 8 * 2 + n % 2) / 2 % 8 = r ∧
    (o % 16 * 16 + r % 8 * 2 + n % 2) % 2 = n := by
  omega

/-- Field recovery from tcp header byte 13. -/
theorem tcp_byte13_recover (c e u a p q s f : Nat) (hc : c < 2) (he : e < 2)
    (hu : u < 2) (ha : a < 2) (hp : p < 2) (hq : q < 2) (hs : s < 2)
    (hf : f < 2) :
    (c % 2 * 128 + e % 2 * 64 + u % 2 * 32 + a % 2 * 16 + p % 2 * 8 +
      q % 2 * 4 + s % 2 * 2 + f % 2) / 128 = c ∧
    (c % 2 * 128 + e % 2 * 64 + u % 2 * 32 + a % 2 * 16 + p % 2 * 8 +
      q % 2 * 4 + s % 2 * 2 + f % 2) / 64 % 2 = e ∧
    (c % 2 * 128 + e % 2 * 64 + u % 2 * 32 + a % 2 * 16 + p % 2 * 8 +
      q % 2 * 4 + s % 2 * 2 + f % 2) / 32 % 2 = u ∧
    (c % 2 * 128 + e % 2 * 64 + u % 2 * 32 + a % 2 * 16 + p % 2 * 8 +
      q % 2 * 4 + s % 2 * 2 + f % 2) / 16 % 2 = a ∧
    (c % 2 * 128 + e % 2 * 64 + u % 2 * 32 + a % 2 * 16 + p % 2 * 8 +
      q % 2 * 4 + s % 2 * 2 + f % 2) / 8 % 2 = p ∧
    (c % 2 * 128 + e % 2 * 64 + u % 2 * 32 + a % 2 * 16 + p % 2 * 8 +
      q % 2 * 4 + s % 2 * 2 + f % 2) / 4 % 2 = q ∧
    (c % 2 * 128 + e % 2 * 64 + u % 2 * 32 + a % 2 * 16 + p % 2 * 8 +
      q % 2 * 4 + s % 2 * 2 + f % 2) / 2 % 2 = s ∧
    (c % 2 * 128 + e % 2 * 64 + u % 2 * 32 + a % 2 * 16 + p % 2 * 8 +
      q % 2 * 4 + s % 2 * 2 + f % 2) % 2 = f := by
  omega

/-- Direction 2 for the tcp codec: parsing a serialized representable
value yields it back with an empty remainder. -/
theorem tcp_write_parse (t : Tcp) (hwf : t.wf) :
    Tcp.parse (Tcp.to_bytes t) = .ok ([], t) := by
  obtain ⟨hsp, hdp, hseq, hack, h5, h16, hfl, hwin, hck, hup, hopts, hlen⟩ := hwf
  obtain ⟨hr, hn, hc, he, hu, ha, hp, hq, hs, hf⟩ := hfl
  obtain ⟨d12, d12b, d12c⟩ :=
    tcp_byte12_recover t.offset t.flags.reserved t.flags.nonce h16 hr hn
  obtain ⟨d13a, d13b, d13c, d13d, d13e, d13f, d13g, d13h⟩ :=
    tcp_byte13_recover t.flags.crw t.flags.ecn t.flags.urgent t.flags.ack
      t.flags.push t.flags.reset t.flags.syn t.flags.fin hc he hu ha hp hq hs hf
  simp only [Tcp.to_bytes, Tcp.parse, List.append_assoc, List.singleton_append,
    List.cons_append, List.nil_append]
  simp only [Bind.bind, Except.bind]
  rw [readBE_beBytes 2 t.sport _ (by simpa using hsp)]
  try dsimp only
  rw [readBE_beBytes 2 t.dport _ (by simpa using hdp)]
  try dsimp only
  rw [readBE_beBytes 4 t.seq _ (by simpa using hseq)]
  try dsimp only
  rw [readBE_beBytes 4 t.ack _ (by simpa using hack)]
  try dsimp only
  rw [readBE_one]
  try dsimp only
  rw [readBE_one]
  try dsimp only
  rw [readBE_beBytes 2 t.window _ (by simpa using hwin)]
  try dsimp only
  rw [readBE_beBytes 2 t.checksum _ (by simpa using hck)]
  try dsimp only
  rw [readBE_beBytes 2 t.urgptr _ (by simpa using hup)]
  try dsimp only
  rw [d12, tcp_read_options_write t.offset t.options h5 h16 hopts hlen]
  try dsimp only
  rw [d12b, d12c, d13a, d13b, d13c, d13d, d13e, d13f, d13g, d13h]

/-- Recomposition of ipv4 header byte 0 (version, ihl). -/
theorem ipv4_byte0_split (b : Nat) (h : b < 256) :
    b / 16 % 16 * 16 + b % 16 = b := by omega

/-- Recomposition of ipv4 header byte 1 (dscp, ecn). -/
theorem ipv4_byte1_split (b : Nat) (h : b < 256) :
    b / 4 % 64 * 4 + b % 4 = b := by omega

/-- Recomposition of the ipv4 flags/fragment-offset 16-bit group. -/
theorem ipv4_w67_split (w : Nat) (h : w < 65536) :
    w / 8192 % 8 * 8192 + w % 8192 = w := by omega

/-- Field recovery from ipv4 header byte 0. -/
theorem ipv4_byte0_recover (ver ihl : Nat) (h : ver < 16) (hi : ihl < 16) :
    (ver % 16 * 16 + ihl % 16) / 16 = ver ∧
    (ver % 16 * 16 + ihl % 16) % 16 = ihl := by omega

/-- Field recovery from ipv4 header byte 1. -/
theorem ipv4_byte1_recover (d e : Nat) (hd : d < 64) (he : e < 4) :
    (d % 64 * 4 + e % 4) / 4 = d ∧ (d % 64 * 4 + e % 4) % 4 = e := by omega

/-- Field recovery from the ipv4 flags/fragment-offset group. -/
theorem ipv4_w67_recover (f o : Nat) (hf : f < 8) (ho : o < 8192) :
    (f % 8 * 8192 + o % 8192) / 8192 = f ∧
    (f % 8 * 8192 + o % 8192) % 8192 = o := by omega

/-- Direction 1 for the ipv4 codec. -/
theorem ipv4_parse_ok (b rest : List Nat) (v : Ipv4)
    (hwf : ∀ x ∈ b, x < 256) (h : Ipv4.parse b = .ok (rest, v)) :
    Ipv4.to_bytes v ++ rest = b := by
  simp only [Ipv4.parse] at h
  obtain ⟨⟨b0, r1⟩, e1, h⟩ := bindOk h
  dsimp only at h
  obtain ⟨⟨b1, r2⟩, e2, h⟩ := bindOk h
  dsimp only at h
  obtain ⟨⟨len, r3⟩, e3, h⟩ := bindOk h
  dsimp only at h
  obtain ⟨⟨ident, r4⟩, e4, h⟩ := bindOk h
  dsimp only at h
  obtain ⟨⟨w, r5⟩, e5, h⟩ := bindOk h
  dsimp only at h
  obtain ⟨⟨ttl, r6⟩, e6, h⟩ := bindOk h
  dsimp only at h
  obtain ⟨⟨proto, r7⟩, e7, h⟩ := bindOk h
  dsimp only at h
  obtain ⟨⟨ck, r8⟩, e8, h⟩ := bindOk h
  dsimp only at h
  obtain ⟨⟨src, r9⟩, e9, h⟩ := bindOk h
  dsimp only at h
  obtain ⟨⟨dst, r10⟩, e10, h⟩ := bindOk h
  dsimp only at h
  obtain ⟨⟨rrest, opts⟩, e11, h⟩ := bindOk h
  dsimp only at h
  simp only [Except.ok.injEq, Prod.mk.injEq] at h
  obtain ⟨hrest, hv⟩ := h
  subst hrest; subst hv
  obtain ⟨q1, c1, w1⟩ := readBE_okE 1 b b0 r1 hwf e1
  obtain ⟨q2, c2, w2⟩ := readBE_okE 1 r1 b1 r2 w1 e2
  obtain ⟨q3, c3, w3⟩ := readBE_okE 2 r2 len r3 w2 e3
  obtain ⟨q4, c4, w4⟩ := readBE_okE 2 r3 ident r4 w3 e4
  obtain ⟨q5, c5, w5⟩ := readBE_okE 2 r4 w r5 w4 e5
  obtain ⟨q6, c6, w6⟩ := readBE_okE 1 r5 ttl r6 w5 e6
  obtain ⟨q7, c7, w7⟩ := readBE_okE 1 r6 proto r7 w6 e7
  obtain ⟨q8, c8, w8⟩ := readBE_okE 2 r7 ck r8 w7 e8
  obtain ⟨q9, c9, w9⟩ := readBE_okE 4 r8 src r9 w8 e9
  obtain ⟨q10, c10, w10⟩ := readBE_okE 4 r9 dst r10 w9 e10
  obtain ⟨q11, _, _⟩ := ipv4_read_options_ok (b0 % 16) r10 rrest opts w10 e11
  subst q1; subst q2; subst q3; subst q4; subst q5; subst q6; subst q7
  subst q8; subst q9; subst q10
  have hb0 : b0 < 256 := by simpa using c1
  have hb1 : b1 < 256 := by simpa using c2
  have hwlt : w < 65536 := by simpa using c5
  have httl : ttl < 256 := by simpa using c6
  have hproto : proto < 256 := by simpa using c7
  simp only [Ipv4.to_bytes, Nat.mod_mod, beBytes_one, List.append_assoc,
    List.cons_append, List.nil_append]
  rw [ipv4_byte0_split b0 hb0, ipv4_byte1_split b1 hb1,
    ipv4_w67_split w hwlt, ipProtocol_toNat_ofNat proto,
    Nat.mod_eq_of_lt httl, Nat.mod_eq_of_lt hproto, ← q11,
    Nat.mod_eq_of_lt hb0, Nat.mod_eq_of_lt hb1]

/-- Direction 2 for the ipv4 codec. -/
theorem ipv4_write_parse (v : Ipv4) (hwf : v.wf) :
    Ipv4.parse (Ipv4.to_bytes v) = .ok ([], v) := by
  obtain ⟨hver, hihl, hdscp, hecn, hlen, hid, hfl, hoff, httl, hcan, hpro,
    hck, hsrc, hdst, hopts, hcond⟩ := hwf
  obtain ⟨d0a, d0b⟩ := ipv4_byte0_recover v.version v.ihl hver hihl
  obtain ⟨d1a, d1b⟩ := ipv4_byte1_recover v.dscp v.ecn hdscp hecn
  obtain ⟨d6a, d6b⟩ := ipv4_w67_recover v.flags v.offset hfl hoff
  simp only [Ipv4.to_bytes, Ipv4.parse, List.append_assoc, List.singleton_append,
    List.cons_append, List.nil_append]
  simp only [Bind.bind, Except.bind]
  rw [readBE_one]
  dsimp only
  rw [readBE_one]
  dsimp only
  rw [readBE_beBytes 2 v.length _ (by simpa using hlen)]
  dsimp only
  rw [readBE_beBytes 2 v.identification _ (by simpa using hid)]
  dsimp only
  rw [readBE_beBytes 2 (v.flags % 8 * 8192 + v.offset % 8192) _ (by
    have hp2 : (256 : Nat) ^ 2 = 65536 := by norm_num
    omega)]
  dsimp only
  rw [readBE_one]
  dsimp only
  rw [readBE_one]
  dsimp only
  rw [readBE_beBytes 2 v.checksum _ (by simpa using hck)]
  dsimp only
  rw [readBE_beBytes 4 v.src _ (by simpa using hsrc)]
  dsimp only
  rw [readBE_beBytes 4 v.dst _ (by simpa using hdst)]
  dsimp only
  rw [d0b, ipv4_read_options_write v.ihl v.options hopts hcond]
  dsimp only
  simp only [IpProtocol.canonical] at hcan
  rw [d0a, d1a, d1b, d6a, d6b, Nat.mod_eq_of_lt httl,
    Nat.mod_eq_of_lt hpro, hcan]

/-- Direction 1 for the ether codec. -/
theorem ether_parse_ok (b rest : List Nat) (e : Ether)
    (hwf : ∀ x ∈ b, x < 256) (h : Ether.parse b = .ok (rest, e)) :
    Ether.to_bytes e ++ rest = b := by
  simp only [Ether.parse] at h
  obtain ⟨⟨d, r1⟩, e1, h⟩ := bindOk h
  dsimp only at h
  obtain ⟨⟨s, r2⟩, e2, h⟩ := bindOk h
  dsimp only at h
  obtain ⟨⟨ty, r3⟩, e3, h⟩ := bindOk h
  dsimp only at h
  simp only [Except.ok.injEq, Prod.mk.injEq] at h
  obtain ⟨hrest, hv⟩ := h
  subst hrest; subst hv
  obtain ⟨q1, c1, w1⟩ := readBytes_okE 6 b d r1 hwf e1
  obtain ⟨q2, c2, w2⟩ := readBytes_okE 6 r1 s r2 w1 e2
  obtain ⟨q3, c3, w3⟩ := readBE_okE 2 r2 ty r3 w2 e3
  subst q1; subst q2; subst q3
  simp only [Ether.to_bytes, etherType_toNat_ofNat, List.append_assoc]

/-- Direction 2 for the ether codec. -/
theorem ether_write_parse (e : Ether) (hwf : e.wf) :
    Ether.parse (Ether.to_bytes e) = .ok ([], e) := by
  obtain ⟨⟨hd6, _⟩, ⟨hs6, _⟩, hcan, hty⟩ := hwf
  simp only [Ether.to_bytes, Ether.parse, List.append_assoc]
  simp only [Bind.bind, Except.bind]
  rw [readBytes_append 6 e.dst.bytes _ hd6]
  dsimp only
  rw [readBytes_append 6 e.src.bytes _ hs6]
  dsimp only
  rw [readBE_beBytes_nil 2 e.ether_type.toNat (by simpa using hty)]
  dsimp only
  simp only [EtherType.canonical] at hcan
  rw [hcan]

/-- Recomposition of the first ipv6 32-bit group (version, ds, ecn,
label). -/
theorem ipv6_w0_split (z : Nat) (h : z < 4294967296) :
    z / 2 ^ 28 % 16 * 2 ^ 28 + z / 2 ^ 22 % 64 * 2 ^ 22 +
    z / 2 ^ 20 % 4 * 2 ^ 20 + z % 2 ^ 20 = z := by omega

/-- Field recovery from the first ipv6 32-bit group. -/
theorem ipv6_w0_recover (ver ds ec lab : Nat) (hv : ver < 16) (hd : ds < 64)
    (he : ec < 4) (hl : lab < 1048576) :
    (ver % 16 * 2 ^ 28 + ds % 64 * 2 ^ 22 + ec % 4 * 2 ^ 20 + lab % 2 ^ 20) / 2 ^ 28 = ver ∧
    (ver % 16 * 2 ^ 28 + ds % 64 * 2 ^ 22 + ec % 4 * 2 ^ 20 + lab % 2 ^ 20) / 2 ^ 22 % 64 = ds ∧
    (ver % 16 * 2 ^ 28 + ds % 64 * 2 ^ 22 + ec % 4 * 2 ^ 20 + lab % 2 ^ 20) / 2 ^ 20 % 4 = ec ∧
    (ver % 16 * 2 ^ 28 + ds % 64 * 2 ^ 22 + ec % 4 * 2 ^ 20 + lab % 2 ^ 20) % 2 ^ 20 = lab := by
  omega

/-- Direction 1 for the ipv6 codec. -/
theorem ipv6_parse_ok (b rest : List Nat) (v : Ipv6)
    (hwf : ∀ x ∈ b, x < 256) (h : Ipv6.parse b = .ok (rest, v)) :
    Ipv6.to_bytes v ++ rest = b := by
  simp only [Ipv6.parse] at h
  obtain ⟨⟨w, r1⟩, e1, h⟩ := bindOk h
  dsimp only at h
  obtain ⟨⟨len, r2⟩, e2, h⟩ := bindOk h
  dsimp only at h
  obtain ⟨⟨nh, r3⟩, e3, h⟩ := bindOk h
  dsimp only at h
  obtain ⟨⟨hop, r4⟩, e4, h⟩ := bindOk h
  dsimp only at h
  obtain ⟨⟨src, r5⟩, e5, h⟩ := bindOk h
  dsimp only at h
  obtain ⟨⟨dst, r6⟩, e6, h⟩ := bindOk h
  dsimp only at h
  simp only [Except.ok.injEq, Prod.mk.injEq] at h
  obtain ⟨hrest, hv⟩ := h
  subst hrest; subst hv
  obtain ⟨q1, c1, w1⟩ := readBE_okE 4 b w r1 hwf e1
  obtain ⟨q2, c2, w2⟩ := readBE_okE 2 r1 len r2 w1 e2
  obtain ⟨q3, c3, w3⟩ := readBE_okE 1 r2 nh r3 w2 e3
  obtain ⟨q4, c4, w4⟩ := readBE_okE 1 r3 hop r4 w3 e4
  obtain ⟨q5, c5, w5⟩ := readBE_okE 16 r4 src r5 w4 e5
  obtain ⟨q6, c6, w6⟩ := readBE_okE 16 r5 dst r6 w5 e6
  rw [q1, q2, q3, q4, q5, q6]
  have hwlt : w < 4294967296 := by simpa using c1
  have hnh : nh < 256 := by simpa using c3
  have hhop : hop < 256 := by simpa using c4
  simp only [Ipv6.to_bytes, Nat.mod_mod, beBytes_one, List.append_assoc,
    List.cons_append, List.nil_append]
  rw [ipv6_w0_split w hwlt, ipProtocol_toNat_ofNat nh,
    Nat.mod_eq_of_lt hnh, Nat.mod_eq_of_lt hhop]

/-- Direction 2 for the ipv6 codec. -/
theorem ipv6_write_parse (v : Ipv6) (hwf : v.wf) :
    Ipv6.parse (Ipv6.to_bytes v) = .ok ([], v) := by
  obtain ⟨hver, hds, hecn, hlab, hlen, hcan, hnh, hhop, hsrc, hdst⟩ := hwf
  obtain ⟨d0a, d0b, d0c, d0d⟩ := ipv6_w0_recover v.version v.ds v.ecn v.label
    hver hds hecn hlab
  simp only [Ipv6.to_bytes, Ipv6.parse, List.append_assoc, List.cons_append,
    List.nil_append]
  simp only [Bind.bind, Except.bind]
  rw [readBE_beBytes 4 (v.version % 16 * 2 ^ 28 + v.ds % 64 * 2 ^ 22 +
    v.ecn % 4 * 2 ^ 20 + v.label % 2 ^ 20) _ (by
      have hp4 : (256 : Nat) ^ 4 = 4294967296 := by norm_num
      omega)]
  dsimp only
  rw [readBE_beBytes 2 v.length _ (by simpa using hlen)]
  dsimp only
  rw [readBE_one]
  dsimp only
  rw [readBE_one]
  dsimp only
  rw [readBE_beBytes 16 v.src _ (by
    have hp16 : (256 : Nat) ^ 16 = 2 ^ 128 := by norm_num
    omega)]
  dsimp only
  rw [readBE_beBytes_nil 16 v.dst (by
    have hp16 : (256 : Nat) ^ 16 = 2 ^ 128 := by norm_num
    omega)]
  dsimp only
  simp only [IpProtocol.canonical] at hcan
  rw [d0a, d0b, d0c, d0d, Nat.mod_eq_of_lt hnh, Nat.mod_eq_of_lt hhop, hcan]

/-- Direction 1 for the icmp codec; the remainder is always empty. -/
theorem icmp4_parse_ok (b rest : List Nat) (v : Icmp4)
    (hwf : ∀ x ∈ b, x < 256) (h : Icmp4.parse b = .ok (rest, v)) :
    Icmp4.to_bytes v ++ rest = b ∧ rest = [] := by
  simp only [Icmp4.parse] at h
  obtain ⟨⟨t, r1⟩, e1, h⟩ := bindOk h
  dsimp only at h
  obtain ⟨⟨code, r2⟩, e2, h⟩ := bindOk h
  dsimp only at h
  obtain ⟨⟨ck, r3⟩, e3, h⟩ := bindOk h
  dsimp only at h
  obtain ⟨⟨msg, r4⟩, e4, h⟩ := bindOk h
  dsimp only at h
  simp only [Except.ok.injEq, Prod.mk.injEq] at h
  obtain ⟨hrest, hv⟩ := h
  subst hv
  obtain ⟨q1, c1, w1⟩ := readBE_okE 1 b t r1 hwf e1
  obtain ⟨q2, c2, w2⟩ := readBE_okE 1 r1 code r2 w1 e2
  obtain ⟨q3, c3, w3⟩ := readBE_okE 2 r2 ck r3 w2 e3
  obtain ⟨q4, c4, w4⟩ := readBE_okE 4 r3 msg r4 w3 e4
  subst q1; subst q2; subst q3; subst q4
  have ht : t < 256 := by simpa using c1
  have hcode : code < 256 := by simpa using c2
  refine ⟨?_, hrest.symm⟩
  subst hrest
  simp only [Icmp4.to_bytes, icmpType_toNat_ofNat, beBytes_one,
    List.append_assoc, List.cons_append, List.nil_append, List.append_nil,
    Nat.mod_eq_of_lt ht, Nat.mod_eq_of_lt hcode]

/-- Direction 2 for the icmp codec. -/
theorem icmp4_write_parse (v : Icmp4) (hwf : v.wf) :
    Icmp4.parse (Icmp4.to_bytes v) = .ok ([], v) := by
  obtain ⟨hcan, hty, hcode, hck, hmsg⟩ := hwf
  simp only [Icmp4.to_bytes, Icmp4.parse, List.append_assoc, List.cons_append,
    List.nil_append]
  simp only [Bind.bind, Except.bind]
  rw [readBE_one]
  dsimp only
  rw [readBE_one]
  dsimp only
  rw [readBE_beBytes 2 v.checksum _ (by simpa using hck)]
  dsimp only
  rw [readBE_beBytes 4 v.message _ (by simpa using hmsg)]
  dsimp only
  simp only [IcmpType.canonical] at hcan
  rw [Nat.mod_eq_of_lt hty, Nat.mod_eq_of_lt hcode, hcan]

/-- Direction 1 for the udp codec. -/
theorem udp_parse_ok (b rest : List Nat) (v : Udp)
    (hwf : ∀ x ∈ b, x < 256) (h : Udp.parse b = .ok (rest, v)) :
    Udp.to_bytes v ++ rest = b := by
  simp only [Udp.parse] at h
  obtain ⟨⟨sport, r1⟩, e1, h⟩ := bindOk h
  dsimp only at h
  obtain ⟨⟨dport, r2⟩, e2, h⟩ := bindOk h
  dsimp only at h
  obtain ⟨⟨len, r3⟩, e3, h⟩ := bindOk h
  dsimp only at h
  obtain ⟨⟨ck, r4⟩, e4, h⟩ := bindOk h
  dsimp only at h
  simp only [Except.ok.injEq, Prod.mk.injEq] at h
  obtain ⟨hrest, hv⟩ := h
  subst hrest; subst hv
  obtain ⟨q1, c1, w1⟩ := readBE_okE 2 b sport r1 hwf e1
  obtain ⟨q2, c2, w2⟩ := readBE_okE 2 r1 dport r2 w1 e2
  obtain ⟨q3, c3, w3⟩ := readBE_okE 2 r2 len r3 w2 e3
  obtain ⟨q4, c4, w4⟩ := readBE_okE 2 r3 ck r4 w3 e4
  subst q1; subst q2; subst q3; subst q4
  simp only [Udp.to_bytes, List.append_assoc]

/-- Direction 2 for the udp codec. -/
theorem udp_write_parse (v : Udp) (hwf : v.wf) :
    Udp.parse (Udp.to_bytes v) = .ok ([], v) := by
  obtain ⟨hsp, hdp, hlen, hck⟩ := hwf
  simp only [Udp.to_bytes, Udp.parse, List.append_assoc]
  simp only [Bind.bind, Except.bind]
  rw [readBE_beBytes 2 v.sport _ (by simpa using hsp)]
  dsimp only
  rw [readBE_beBytes 2 v.dport _ (by simpa using hdp)]
  dsimp only
  rw [readBE_beBytes 2 v.length _ (by simpa using hlen)]
  dsimp only
  rw [readBE_beBytes_nil 2 v.checksum (by simpa using hck)]

/-- Direction 1 for the raw codec; the remainder is always empty. -/
theorem raw_parse_ok (b rest : List Nat) (v : Raw)
    (h : Raw.parse b = .ok (rest, v)) :
    Raw.to_bytes v ++ rest = b ∧ rest = [] := by
  simp only [Raw.parse, Except.ok.injEq, Prod.mk.injEq] at h
  obtain ⟨hrest, hv⟩ := h
  subst hrest; subst hv
  simp [Raw.to_bytes]

/-- Direction 2 for the raw codec. -/
theorem raw_write_parse (v : Raw) (hwf : v.wf) :
    Raw.parse (Raw.to_bytes v) = .ok ([], v) := by
  obtain ⟨data, off⟩ := v
  simp only [Raw.wf] at hwf
  subst hwf
  rfl

/-- C4: `parse_packet` follows exactly the dispatch walk: parse the start
layer; an empty remainder stops the walk (for every registry, without
consulting any callback); an unmatched lookup stops the walk appending
the current layer; a matched callback's parse function is run on the
remainder, the previous current layer is appended and the walk continues;
callbacks are consulted in reverse insertion order, so a binding
registered later for the same source type wins, and a later binding
returning `None` defers to the earlier ones. -/
theorem claim_C4_parse_packet_walk :
    (∀ (α : Type) (p : PacketParser α) (fuel : Nat) (current : α)
      (layers : List α),
      parsePacketLoop p (fuel + 1) current [] layers =
        some (.ok ([], layers ++ [current]))) ∧
    (∀ (α : Type) (p : PacketParser α)
      (startParse : List Nat → Except LayerError (List Nat × α))
      (input : List Nat) (fuel : Nat) (l : α),
      startParse input = .ok ([], l) →
      p.parse_packet startParse input (fuel + 1) = some (.ok ([], [l]))) ∧
    (∀ (α : Type) (p : PacketParser α) (fuel : Nat) (current : α)
      (rest : List Nat) (layers : List α),
      rest ≠ [] →
      findNextLayer (p.layer_bindings (p.tagOf current)) current rest = none →
      parsePacketLoop p (fuel + 1) current rest layers =
        some (.ok (rest, layers ++ [current]))) ∧
    (∀ (α : Type) (p : PacketParser α) (fuel : Nat) (current : α)
      (rest : List Nat) (layers : List α) pf (new_rest : List Nat) (next : α),
      rest ≠ [] →
      findNextLayer (p.layer_bindings (p.tagOf current)) current rest = some pf →
      pf rest = .ok (new_rest, next) →
      parsePacketLoop p (fuel + 1) current rest layers =
        parsePacketLoop p fuel next new_rest (layers ++ [current])) ∧
    (∀ (α : Type) (p : PacketParser α) (t : Nat) (f g : Binding α)
      (current : α) (rest : List Nat) pf,
      p.tagOf current = t → g current rest = some pf →
      findNextLayer
        (((p.bind_layer t f).bind_layer t g).layer_bindings (p.tagOf current))
        current rest = some pf) ∧
    (∀ (α : Type) (p : PacketParser α) (t : Nat) (g : Binding α)
      (current : α) (rest : List Nat),
      p.tagOf current = t → g current rest = none →
      findNextLayer ((p.bind_layer t g).layer_bindings (p.tagOf current))
        current rest =
      findNextLayer (p.layer_bindings (p.tagOf current)) current rest) := by
  refine ⟨?_, ?_, ?_, ?_, ?_, ?_⟩
  · intro α p fuel current layers
    simp [parsePacketLoop]
  · intro α p startParse input fuel l h
    simp only [PacketParser.parse_packet, h]
    simp [parsePacketLoop]
  · intro α p fuel current rest layers hne hfind
    cases rest with
    | nil => exact absurd rfl hne
    | cons b r => simp [parsePacketLoop, hfind]
  · intro α p fuel current rest layers pf new_rest next hne hfind hpf
    cases rest with
    | nil => exact absurd rfl hne
    | cons b r => simp [parsePacketLoop, hfind, hpf]
  · intro α p t f g current rest pf htag hg
    simp [PacketParser.bind_layer, findNextLayer, htag, hg]
  · intro α p t g current rest htag hg
    simp [PacketParser.bind_layer, findNextLayer, htag, hg]

/-- C8: errors of `parse_packet` propagate without a partial packet: a
failing start-layer parse and a failing mid-stream parse both return only
the converted error; a layer `Incomplete(need)` surfaces verbatim as
`PacketError::Incomplete(need)`, every other layer error as
`PacketError::LayerError` of that error. -/
theorem claim_C8_error_propagation :
    (∀ (α : Type) (p : PacketParser α)
      (startParse : List Nat → Except LayerError (List Nat × α))
      (input : List Nat) (fuel : Nat) (e : LayerError),
      startParse input = .error e →
      p.parse_packet startParse input fuel =
        some (.error (PacketError.ofLayerError e))) ∧
    (∀ (α : Type) (p : PacketParser α) (fuel : Nat) (current : α)
      (rest : List Nat) (layers : List α) pf (e : LayerError),
      rest ≠ [] →
      findNextLayer (p.layer_bindings (p.tagOf current)) current rest = some pf →
      pf rest = .error e →
      parsePacketLoop p (fuel + 1) current rest layers =
        some (.error (PacketError.ofLayerError e))) ∧
    (∀ n, PacketError.ofLayerError (.Incomplete n) = .Incomplete n) ∧
    (∀ s, PacketError.ofLayerError (.Parse s) = .LayerError (.Parse s)) ∧
    (∀ s, PacketError.ofLayerError (.Finalize s) = .LayerError (.Finalize s)) ∧
    (∀ s, PacketError.ofLayerError (.DekuError s) = .LayerError (.DekuError s)) := by
  refine ⟨?_, ?_, fun n => rfl, fun s => rfl, fun s => rfl, fun s => rfl⟩
  · intro α p startParse input fuel e h
    simp [PacketParser.parse_packet, h]
  · intro α p fuel current rest layers pf e hne hfind hpf
    cases rest with
    | nil => exact absurd rfl hne
    | cons b r => simp [parsePacketLoop, hfind, hpf]

/-- Helper: full characterization of a successful `packetFinalizeGo` run:
the result extends `done` by one finalized layer per `todo` element, each
obtained from its own finalize applied to the already-finalized prefix
and the original suffix. -/
theorem packetFinalizeGo_ok {α : Type}
    (F : α → List α → List α → Except LayerError α) :
    ∀ (todo done ls' : List α), packetFinalizeGo F done todo = .ok ls' →
    ∃ suf, ls' = done ++ suf ∧ suf.length = todo.length ∧
      ∀ (i : Nat) (h : i < todo.length) (h2 : i < suf.length),
        F (todo.get ⟨i, h⟩) (done ++ suf.take i) (todo.drop (i + 1)) =
          .ok (suf.get ⟨i, h2⟩) := by
  intro todo
  induction todo with
  | nil =>
    intro done ls' h
    simp only [packetFinalizeGo, Except.ok.injEq] at h
    subst h
    exact ⟨[], by simp, rfl, fun i h h2 => absurd h (by simp)⟩
  | cons x todo ih =>
    intro done ls' h
    simp only [packetFinalizeGo] at h
    cases hx : F x done todo with
    | error e => rw [hx] at h; exact absurd h (by simp)
    | ok x' =>
      rw [hx] at h
      obtain ⟨suf, hls, hlen, hstep⟩ := ih (done ++ [x']) ls' h
      refine ⟨x' :: suf, by simpa using hls, by simpa using hlen, ?_⟩
      intro i hi h2
      cases i with
      | zero =>
        simpa using hx
      | succ j =>
        have hj : j < todo.length := by simpa using hi
        have hj2 : j < suf.length := by simpa using h2
        have := hstep j hj hj2
        simpa [List.append_assoc] using this

/-- C9: `Packet::finalize` performs a single left-to-right pass: on a
packet of `n` layers each layer's finalize is invoked exactly once with
`prev` the (already finalized) layers before it and `next` the original
layers after it; the first layer error aborts the pass and is returned;
the empty packet finalizes to `Ok`. -/
theorem claim_C9_packet_finalize :
    (∀ (α : Type) (F : α → List α → List α → Except LayerError α),
      Packet.finalize F ([] : List α) = .ok []) ∧
    (∀ (α : Type) (F : α → List α → List α → Except LayerError α)
      (ls ls' : List α), Packet.finalize F ls = .ok ls' →
      ls'.length = ls.length ∧
      ∀ (i : Nat) (h : i < ls.length) (h2 : i < ls'.length),
        F (ls.get ⟨i, h⟩) (ls'.take i) (ls.drop (i + 1)) =
          .ok (ls'.get ⟨i, h2⟩)) ∧
    (∀ (α : Type) (F : α → List α → List α → Except LayerError α)
      (done : List α) (x : α) (todo : List α) (e : LayerError),
      F x done todo = .error e →
      packetFinalizeGo F done (x :: todo) =
        .error (PacketError.ofLayerError e)) := by
  refine ⟨fun α F => rfl, ?_, ?_⟩
  · intro α F ls ls' h
    obtain ⟨suf, hls, hlen, hstep⟩ := packetFinalizeGo_ok F ls [] ls' h
    simp only [List.nil_append] at hls hstep
    subst hls
    exact ⟨hlen, hstep⟩
  · intro α F done x todo e h
    simp [packetFinalizeGo, h]

theorem tcpOptionsBytes_append (a b : List TcpOption) :
    tcpOptionsBytes (a ++ b) = tcpOptionsBytes a ++ tcpOptionsBytes b := by
  simp [tcpOptionsBytes]

theorem tcpOptionsBytes_replicate_EOL (n : Nat) :
    tcpOptionsBytes (List.replicate n TcpOption.EOL) = List.replicate n 0 := by
  induction n with
  | zero => rfl
  | succ n ih =>
    simp only [List.replicate_succ, tcpOptionsBytes, List.map_cons,
      List.flatten_cons, TcpOption.write]
    simp only [tcpOptionsBytes] at ih
    rw [ih]
    rfl

/-- The serialized tcp length is the 20 fixed bytes plus the options. -/
theorem tcp_to_bytes_length (t : Tcp) :
    (Tcp.to_bytes t).length = 20 + (tcpOptionsBytes t.options).length := by
  simp [Tcp.to_bytes, beBytes_length, List.length_append]
  omega

/-- The padded serialized length is the original length rounded up to a
multiple of 4. -/
theorem tcp_padded_to_bytes_length (t : Tcp) :
    (Tcp.to_bytes t.padded).length = 4 * (((Tcp.to_bytes t).length + 3) / 4) := by
  have h1 := tcp_to_bytes_length t
  have h2 := tcp_to_bytes_length t.padded
  have h3 : t.padded.options = t.options ++
      List.replicate (4 * (((Tcp.to_bytes t).length + 3) / 4) -
        (Tcp.to_bytes t).length) TcpOption.EOL := rfl
  rw [h3, tcpOptionsBytes_append, tcpOptionsBytes_replicate_EOL] at h2
  simp only [List.length_append, List.length_replicate] at h2
  omega

theorem tcp_checksumHeader_length (t : Tcp) :
    (Tcp.checksumHeader t).length = (Tcp.to_bytes t.padded).length := by
  simp [Tcp.checksumHeader]

/-- Inversion for the checksum stage of `Tcp::finalize`: the result only
updates the checksum, and the new value is determined by the last previous
layer. -/
theorem tcp_finalizeChecksummed_inv (t1 : Tcp) (hdr : List Nat)
    (prev next : List DynLayer) (t2 : Tcp)
    (h : Tcp.finalizeChecksummed t1 hdr prev next = .ok t2) :
    ∃ ck, t2 = { t1 with checksum := ck } ∧
      (prev.getLast? = none → ck = t1.checksum) ∧
      (∀ pl, prev.getLast? = some pl → pl.asIpv4 = none → pl.asIpv6 = none →
        ck = t1.checksum) ∧
      (∀ pl ip4, prev.getLast? = some pl → pl.asIpv4 = some ip4 →
        ∃ payload, data_of_layers next = .ok payload ∧
          ck = Hatchet.checksum (ipv4PseudoHeaderBytes ip4
            (hdr.length + payload.length) ++ hdr ++ payload)) ∧
      (∀ pl ip6, prev.getLast? = some pl → pl.asIpv4 = none →
        pl.asIpv6 = some ip6 →
        ∃ payload, data_of_layers next = .ok payload ∧
          ck = Hatchet.checksum (ipv6PseudoHeaderBytes ip6
            (hdr.length + payload.length) ++ hdr ++ payload)) := by
  simp only [Tcp.finalizeChecksummed, Bind.bind, Except.bind] at h
  rcases hlast : prev.getLast? with _ | pl
  · rw [hlast] at h; dsimp only at h
    cases h
    refine ⟨t1.checksum, rfl, fun _ => rfl, ?_, ?_, ?_⟩
    · intro pl h1 _ _; exact Option.noConfusion h1
    · intro pl ip4 h1 _; exact Option.noConfusion h1
    · intro pl ip6 h1 _ _; exact Option.noConfusion h1
  · rw [hlast] at h; dsimp only at h
    rcases hdat : data_of_layers next with e | payload
    · rw [hdat] at h; dsimp only at h; cases h
    rw [hdat] at h; dsimp only at h
    rcases hip4 : pl.asIpv4 with _ | ip4
    · rw [hip4] at h; dsimp only at h
      rcases hip6 : pl.asIpv6 with _ | ip6
      · rw [hip6] at h; dsimp only at h
        cases h
        refine ⟨t1.checksum, rfl, ?_, ?_, ?_, ?_⟩
        · intro h1; exact Option.noConfusion h1
        · intro _ _ _ _; rfl
        · intro pl' ip4' h1 h2
          injection h1 with h1; subst h1
          rw [hip4] at h2; exact Option.noConfusion h2
        · intro pl' ip6' h1 _ h3
          injection h1 with h1; subst h1
          rw [hip6] at h3; exact Option.noConfusion h3
      · rw [hip6] at h; dsimp only at h
        by_cases hc : hdr.length + payload.length < 4294967296
        · rw [if_pos hc] at h; dsimp only at h
          cases h
          refine ⟨_, rfl, ?_, ?_, ?_, ?_⟩
          · intro h1; exact Option.noConfusion h1
          · intro pl' h1 _ h3
            injection h1 with h1; subst h1
            rw [hip6] at h3; exact Option.noConfusion h3
          · intro pl' ip4' h1 h2
            injection h1 with h1; subst h1
            rw [hip4] at h2; exact Option.noConfusion h2
          · intro pl' ip6' h1 _ h3
            injection h1 with h1; subst h1
            rw [hip6] at h3
            injection h3 with h3; subst h3
            exact ⟨payload, rfl, rfl⟩
        · rw [if_neg hc] at h; dsimp only at h; cases h
    · rw [hip4] at h; dsimp only at h
      by_cases hc : hdr.length + payload.length < 65536
      · rw [if_pos hc] at h; dsimp only at h
        cases h
        refine ⟨_, rfl, ?_, ?_, ?_, ?_⟩
        · intro h1; exact Option.noConfusion h1
        · intro pl' h1 h2 _
          injection h1 with h1; subst h1
          rw [hip4] at h2; exact Option.noConfusion h2
        · intro pl' ip4' h1 h2
          injection h1 with h1; subst h1
          rw [hip4] at h2
          injection h2 with h2; subst h2
          exact ⟨payload, rfl, rfl⟩
        · intro pl' ip6' h1 h2 _
          injection h1 with h1; subst h1
          rw [hip4] at h2; exact Option.noConfusion h2
      · rw [if_neg hc] at h; dsimp only at h; cases h

/-- Master inversion for a successful `Tcp::finalize`: the result is the
padded value with the offset recomputed from the padded length and the
checksum determined by the last previous layer. -/
theorem tcp_finalize_inv (t : Tcp) (prev next : List DynLayer) (t' : Tcp)
    (h : Tcp.finalize t prev next = .ok t') :
    ∃ ck, t' = { t.padded with checksum := ck,
                               offset := (Tcp.checksumHeader t).length / 4 } ∧
      (Tcp.checksumHeader t).length / 4 < 256 ∧
      (prev.getLast? = none → ck = t.checksum) ∧
      (∀ pl, prev.getLast? = some pl → pl.asIpv4 = none → pl.asIpv6 = none →
        ck = t.checksum) ∧
      (∀ pl ip4, prev.getLast? = some pl → pl.asIpv4 = some ip4 →
        ∃ payload, data_of_layers next = .ok payload ∧
          ck = Hatchet.checksum (ipv4PseudoHeaderBytes ip4
            ((Tcp.checksumHeader t).length + payload.length) ++
            Tcp.checksumHeader t ++ payload)) ∧
      (∀ pl ip6, prev.getLast? = some pl → pl.asIpv4 = none →
        pl.asIpv6 = some ip6 →
        ∃ payload, data_of_layers next = .ok payload ∧
          ck = Hatchet.checksum (ipv6PseudoHeaderBytes ip6
            ((Tcp.checksumHeader t).length + payload.length) ++
            Tcp.checksumHeader t ++ payload)) := by
  simp only [Tcp.finalize, Bind.bind, Except.bind] at h
  rw [show ((Tcp.to_bytes { t with options := t.options ++ List.replicate (4 * (((Tcp.to_bytes t).length + 3) / 4) - (Tcp.to_bytes t).length) TcpOption.EOL }).set 16 0).set 17 0 = Tcp.checksumHeader t from rfl] at h
  rw [show ({ t with options := t.options ++ List.replicate (4 * (((Tcp.to_bytes t).length + 3) / 4) - (Tcp.to_bytes t).length) TcpOption.EOL } : Tcp) = t.padded from rfl] at h
  rcases hfc : Tcp.finalizeChecksummed t.padded (Tcp.checksumHeader t)
      prev next with e | t2
  · rw [hfc] at h; dsimp only at h; cases h
  rw [hfc] at h; dsimp only at h
  split at h
  · cases h
    obtain ⟨ck, ht2, hn, ho, h4, h6⟩ := tcp_finalizeChecksummed_inv _ _ _ _ _ hfc
    subst ht2
    exact ⟨ck, rfl, by assumption, hn, ho, h4, h6⟩
  · cases h

theorem readBE_cons2 (a b : Nat) (r : List Nat) :
    readBE 2 (a :: b :: r) = .ok (a * 256 + b, r) := by
  rw [readBE, if_neg (by simp)]
  show Except.ok (beVal (List.take 2 (a :: b :: r)), List.drop 2 (a :: b :: r)) = _
  rw [show List.take 2 (a :: b :: r) = [a, b] from rfl,
      show List.drop 2 (a :: b :: r) = r from rfl]
  simp [beVal]

theorem readBE_cons4 (a b c d : Nat) (r : List Nat) :
    readBE 4 (a :: b :: c :: d :: r) =
      .ok (((a * 256 + b) * 256 + c) * 256 + d, r) := by
  rw [readBE, if_neg (by simp)]
  show Except.ok (beVal (List.take 4 (a :: b :: c :: d :: r)),
    List.drop 4 (a :: b :: c :: d :: r)) = _
  rw [show List.take 4 (a :: b :: c :: d :: r) = [a, b, c, d] from rfl,
      show List.drop 4 (a :: b :: c :: d :: r) = r from rfl]
  simp [beVal]

/-- The serialized ipv4 length is the 20 fixed bytes plus the options. -/
theorem ipv4_to_bytes_length (v : Ipv4) :
    (Ipv4.to_bytes v).length = 20 + (ipv4OptionsBytes v.options).length := by
  simp [Ipv4.to_bytes, beBytes_length, List.length_append]
  omega

/-- Length facts for a successful `Tcp::finalize`: the result serializes
to the padded length, a multiple of 4, and `offset` is that length over
4; the options are the padded options. -/
theorem tcp_finalize_len (t : Tcp) (prev next : List DynLayer) (t' : Tcp)
    (h : Tcp.finalize t prev next = .ok t') :
    (Tcp.to_bytes t').length = (Tcp.to_bytes t.padded).length ∧
    (Tcp.to_bytes t').length % 4 = 0 ∧
    t'.offset = (Tcp.to_bytes t').length / 4 ∧
    t'.options = t.padded.options := by
  obtain ⟨ck, ht', hlt, -, -, -, -⟩ := tcp_finalize_inv t prev next t' h
  have hopt : t'.options = t.padded.options := by rw [ht']
  have hlen : (Tcp.to_bytes t').length = (Tcp.to_bytes t.padded).length := by
    rw [tcp_to_bytes_length, tcp_to_bytes_length, hopt]
  have hmod : (Tcp.to_bytes t').length % 4 = 0 := by
    rw [hlen, tcp_padded_to_bytes_length]; omega
  refine ⟨hlen, hmod, ?_, hopt⟩
  have hoff : t'.offset = (Tcp.checksumHeader t).length / 4 := by rw [ht']
  rw [hoff, tcp_checksumHeader_length, hlen]

/-- C10: frame effect of `Tcp::finalize`: on success only `checksum`,
`offset` and `options` may change — `sport`, `dport`, `seq`, `ack`,
`flags`, `window` and `urgptr` are unchanged — and when `prev` is empty
the checksum is also unchanged. -/
theorem claim_C10_tcp_finalize_frame (t : Tcp) (prev next : List DynLayer)
    (t' : Tcp) (h : Tcp.finalize t prev next = .ok t') :
    t'.sport = t.sport ∧ t'.dport = t.dport ∧ t'.seq = t.seq ∧
    t'.ack = t.ack ∧ t'.flags = t.flags ∧ t'.window = t.window ∧
    t'.urgptr = t.urgptr ∧ (prev = [] → t'.checksum = t.checksum) := by
  obtain ⟨ck, ht', -, hnone, -, -, -⟩ := tcp_finalize_inv t prev next t' h
  subst ht'
  refine ⟨rfl, rfl, rfl, rfl, rfl, rfl, rfl, fun hp => ?_⟩
  subst hp
  exact hnone rfl

theorem claim_C10_tcp_finalize_frame_witness :
    Tcp.default.sport = Tcp.default.sport ∧
    Tcp.default.dport = Tcp.default.dport ∧
    Tcp.default.seq = Tcp.default.seq ∧
    Tcp.default.ack = Tcp.default.ack ∧
    Tcp.default.flags = Tcp.default.flags ∧
    Tcp.default.window = Tcp.default.window ∧
    Tcp.default.urgptr = Tcp.default.urgptr ∧
    (([] : List DynLayer) = [] →
      Tcp.default.checksum = Tcp.default.checksum) :=
  claim_C10_tcp_finalize_frame Tcp.default [] [] Tcp.default (by decide)

set_option maxRecDepth 100000 in
/-- C2 (corrected): a successful `Tcp::finalize` (i) pads the options
with EOL to a 32-bit boundary, (ii) sets `offset` to the serialized
length over 4, and (iii) with an IPv4 or IPv6 layer last in `prev` sets
`checksum` to the Internet checksum of pseudo-header, checksum-zeroed
header and payload — the header reflecting step (i) but carrying the
pre-finalize `offset`, not the one set in step (ii) — and leaves the
checksum untouched when the last previous layer is neither; the claim's
concrete vectors `0xB11A` (= 45338) and `0xB0E6` (= 45286) hold. -/
theorem claim_C2_tcp_finalize (t : Tcp) (prev next : List DynLayer)
    (t' : Tcp) (h : Tcp.finalize t prev next = .ok t') :
    t'.options = t.options ++ List.replicate (4 * (((Tcp.to_bytes t).length + 3) / 4) - (Tcp.to_bytes t).length) TcpOption.EOL ∧
    (Tcp.to_bytes t').length % 4 = 0 ∧
    t'.offset = (Tcp.to_bytes t').length / 4 ∧
    (∀ pl ip4, prev.getLast? = some pl → pl.asIpv4 = some ip4 →
      ∃ payload, data_of_layers next = .ok payload ∧
        t'.checksum = Hatchet.checksum (ipv4PseudoHeaderBytes ip4 ((Tcp.checksumHeader t).length + payload.length) ++ Tcp.checksumHeader t ++ payload)) ∧
    (∀ pl ip6, prev.getLast? = some pl → pl.asIpv4 = none →
      pl.asIpv6 = some ip6 →
      ∃ payload, data_of_layers next = .ok payload ∧
        t'.checksum = Hatchet.checksum (ipv6PseudoHeaderBytes ip6 ((Tcp.checksumHeader t).length + payload.length) ++ Tcp.checksumHeader t ++ payload)) ∧
    (∀ pl, prev.getLast? = some pl → pl.asIpv4 = none → pl.asIpv6 = none →
      t'.checksum = t.checksum) ∧
    Except.map Tcp.checksum (Tcp.finalize Tcp.default [DynLayer.ipv4 Ipv4.default] [DynLayer.ext (List.replicate 100 0), DynLayer.ext [], DynLayer.ext (List.replicate 100 0)]) = .ok 45338 ∧
    Except.map Tcp.checksum (Tcp.finalize Tcp.default [DynLayer.ipv6 Ipv6.default] [DynLayer.ext (List.replicate 100 0), DynLayer.ext [], DynLayer.ext (List.replicate 100 0)]) = .ok 45286 := by
  obtain ⟨ck, ht', hlt, hnone, hother, hip4, hip6⟩ :=
    tcp_finalize_inv t prev next t' h
  obtain ⟨hlen, hmod, hoff, hopt⟩ := tcp_finalize_len t prev next t' h
  have hck : t'.checksum = ck := by rw [ht']
  refine ⟨?_, hmod, hoff, ?_, ?_, ?_, by decide, by decide⟩
  · rw [hopt, Tcp.padded]
  · intro pl ip4 h1 h2
    obtain ⟨payload, hd, hc⟩ := hip4 pl ip4 h1 h2
    exact ⟨payload, hd, by rw [hck, hc]⟩
  · intro pl ip6 h1 h2 h3
    obtain ⟨payload, hd, hc⟩ := hip6 pl ip6 h1 h2 h3
    exact ⟨payload, hd, by rw [hck, hc]⟩
  · intro pl h1 h2 h3
    rw [hck]
    exact hother pl h1 h2 h3

set_option maxRecDepth 100000 in
theorem claim_C2_tcp_finalize_witness :
    ({ Tcp.default with checksum := 45338 } : Tcp).offset =
      (Tcp.to_bytes { Tcp.default with checksum := 45338 }).length / 4 :=
  (claim_C2_tcp_finalize Tcp.default [DynLayer.ipv4 Ipv4.default]
    [DynLayer.ext (List.replicate 100 0), DynLayer.ext [],
     DynLayer.ext (List.replicate 100 0)]
    { Tcp.default with checksum := 45338 } (by decide)).2.2.1

set_option maxRecDepth 100000 in
/-- C2 counterexample: for the claim's parenthetical "(the header
reflecting steps i-ii)" — the checksum-zeroed header serialized after the
offset update — the checksum formula gives 41082, while the source (which
serializes the header before updating `offset`) stores 45178. -/
theorem claim_C2_counterexample :
    Except.map Tcp.checksum (Tcp.finalize { Tcp.default with options := [TcpOption.NOP] } [DynLayer.ipv4 Ipv4.default] [DynLayer.ext (List.replicate 100 0)]) = .ok 45178 ∧
    Hatchet.checksum (ipv4PseudoHeaderBytes Ipv4.default ((Tcp.checksumHeaderPost { Tcp.default with options := [TcpOption.NOP] }).length + 100) ++ Tcp.checksumHeaderPost { Tcp.default with options := [TcpOption.NOP] } ++ List.replicate 100 0) = 41082 ∧
    (45178 : Nat) ≠ 41082 := by
  refine ⟨by decide, by decide, by decide⟩

/-- C3: `Ipv4::finalize` sets `length` to the layer's own serialized
length plus the summed `length()` of the next layers, failing with a
`Finalize` error when the sum does not fit 16 bits, and then recomputes
the header checksum over the serialized header with bytes 10-11 zeroed;
after success `v'.length = v'.to_bytes().len() + Σ next[i].length()`. -/
theorem claim_C3_ipv4_finalize (v : Ipv4) (prev next : List DynLayer)
    (nl : Nat) (hnl : length_of_layers next = .ok nl) :
    ((Ipv4.to_bytes v).length + nl < 65536 →
      Ipv4.finalize v prev next =
        .ok (Ipv4.update_checksum { v with length := (Ipv4.to_bytes v).length + nl })) ∧
    (¬ (Ipv4.to_bytes v).length + nl < 65536 →
      Ipv4.finalize v prev next =
        .error (.Finalize "Could not convert layer length to u16")) ∧
    (∀ v', Ipv4.finalize v prev next = .ok v' →
      v'.length = (Ipv4.to_bytes v').length + nl ∧
      v'.checksum = Hatchet.checksum (((Ipv4.to_bytes { v with length := (Ipv4.to_bytes v).length + nl }).set 10 0).set 11 0)) := by
  have hfin : Ipv4.finalize v prev next =
      if (Ipv4.to_bytes v).length + nl < 65536 then
        .ok (Ipv4.update_checksum { v with length := (Ipv4.to_bytes v).length + nl })
      else .error (.Finalize "Could not convert layer length to u16") := by
    simp only [Ipv4.finalize, Bind.bind, Except.bind, hnl]
  refine ⟨fun hc => by rw [hfin, if_pos hc], fun hc => by rw [hfin, if_neg hc], ?_⟩
  intro v' h
  rw [hfin] at h
  by_cases hc : (Ipv4.to_bytes v).length + nl < 65536
  · rw [if_pos hc] at h
    injection h with h
    subst h
    refine ⟨?_, rfl⟩
    have h1 : (Ipv4.update_checksum { v with length := (Ipv4.to_bytes v).length + nl }).length = (Ipv4.to_bytes v).length + nl := rfl
    have h2 : (Ipv4.to_bytes (Ipv4.update_checksum { v with length := (Ipv4.to_bytes v).length + nl })).length = (Ipv4.to_bytes v).length := by
      rw [ipv4_to_bytes_length, ipv4_to_bytes_length]
      rfl
    rw [h1, h2]
  · rw [if_neg hc] at h
    cases h

theorem claim_C3_ipv4_finalize_witness :
    (Ipv4.to_bytes Ipv4.default).length + 0 < 65536 ∧
    Ipv4.finalize Ipv4.default [] [] =
      .ok (Ipv4.update_checksum { Ipv4.default with length := (Ipv4.to_bytes Ipv4.default).length + 0 }) :=
  ⟨by decide,
   (claim_C3_ipv4_finalize Ipv4.default [] [] 0 (by decide)).1 (by decide)⟩

/-- C6 (corrected): the options-length invariant `to_bytes().len() ==
offset * 4` holds for every parse-produced TCP value and after every
successful finalize (where the length is moreover a multiple of 4), but
not for arbitrary TCP values. -/
theorem claim_C6_options_length :
    (∀ (b rest : List Nat) (t : Tcp), (∀ x ∈ b, x < 256) →
      Tcp.parse b = .ok (rest, t) →
      (Tcp.to_bytes t).length = t.offset * 4) ∧
    (∀ (t : Tcp) (prev next : List DynLayer) (t' : Tcp),
      Tcp.finalize t prev next = .ok t' →
      (Tcp.to_bytes t').length = t'.offset * 4 ∧
      (Tcp.to_bytes t').length % 4 = 0) := by
  constructor
  · intro b rest t hwf h
    simp only [Tcp.parse] at h
    obtain ⟨⟨sport, r1⟩, e1, h⟩ := bindOk h
    dsimp only at h
    obtain ⟨⟨dport, r2⟩, e2, h⟩ := bindOk h
    dsimp only at h
    obtain ⟨⟨seq, r3⟩, e3, h⟩ := bindOk h
    dsimp only at h
    obtain ⟨⟨ackn, r4⟩, e4, h⟩ := bindOk h
    dsimp only at h
    obtain ⟨⟨b12, r5⟩, e5, h⟩ := bindOk h
    dsimp only at h
    obtain ⟨⟨b13, r6⟩, e6, h⟩ := bindOk h
    dsimp only at h
    obtain ⟨⟨window, r7⟩, e7, h⟩ := bindOk h
    dsimp only at h
    obtain ⟨⟨ck, r8⟩, e8, h⟩ := bindOk h
    dsimp only at h
    obtain ⟨⟨urgptr, r9⟩, e9, h⟩ := bindOk h
    dsimp only at h
    obtain ⟨⟨ro, opts⟩, e10, h⟩ := bindOk h
    dsimp only at h
    simp only [Except.ok.injEq, Prod.mk.injEq] at h
    obtain ⟨hrest, hv⟩ := h
    subst hv
    obtain ⟨-, -, w1⟩ := readBE_okE 2 b sport r1 hwf e1
    obtain ⟨-, -, w2⟩ := readBE_okE 2 r1 dport r2 w1 e2
    obtain ⟨-, -, w3⟩ := readBE_okE 4 r2 seq r3 w2 e3
    obtain ⟨-, -, w4⟩ := readBE_okE 4 r3 ackn r4 w3 e4
    obtain ⟨-, -, w5⟩ := readBE_okE 1 r4 b12 r5 w4 e5
    obtain ⟨-, -, w6⟩ := readBE_okE 1 r5 b13 r6 w5 e6
    obtain ⟨-, -, w7⟩ := readBE_okE 2 r6 window r7 w6 e7
    obtain ⟨-, -, w8⟩ := readBE_okE 2 r7 ck r8 w7 e8
    obtain ⟨-, -, w9⟩ := readBE_okE 2 r8 urgptr r9 w8 e9
    obtain ⟨-, hlen2, hoff5, -⟩ :=
      tcp_read_options_ok (b12 / 16) r9 ro opts w9 e10
    rw [tcp_to_bytes_length]
    show 20 + (tcpOptionsBytes opts).length = b12 / 16 * 4
    rw [hlen2]
    omega
  · intro t prev next t' h
    obtain ⟨-, hmod, hoff, -⟩ := tcp_finalize_len t prev next t' h
    refine ⟨?_, hmod⟩
    rw [hoff]
    omega

theorem claim_C6_options_length_witness :
    (∀ x ∈ Tcp.to_bytes Tcp.default, x < 256) ∧
    (Tcp.to_bytes Tcp.default).length = Tcp.default.offset * 4 :=
  ⟨by decide,
   claim_C6_options_length.1 (Tcp.to_bytes Tcp.default) [] Tcp.default
     (by decide) (by decide)⟩

/-- C6 counterexample: the invariant does not hold for an arbitrary TCP
value — with `offset := 6` the header still serializes to 20 bytes,
not 24. -/
theorem claim_C6_counterexample :
    (Tcp.to_bytes { Tcp.default with offset := 6 }).length ≠
      ({ Tcp.default with offset := 6 } : Tcp).offset * 4 := by
  decide

/-- C7 (corrected): option-parsing preconditions.  For `Tcp::parse` an
`offset` below 5 is the invalid-offset parse error and an options region
longer than the remaining input is the not-enough-data parse error; for
`Ipv4::parse` an oversized options region is likewise the not-enough-data
parse error, but `ihl ≤ 5` is not an error — `Ipv4::read_options` simply
returns no options. -/
theorem claim_C7_option_preconditions (b0 b1 b2 b3 b4 b5 b6 b7 b8 b9 b10
    b11 b12 b13 b14 b15 b16 b17 b18 b19 : Nat) (rest : List Nat) :
    (b12 / 16 < 5 →
      Tcp.parse (b0 :: b1 :: b2 :: b3 :: b4 :: b5 :: b6 :: b7 :: b8 :: b9 :: b10 :: b11 :: b12 :: b13 :: b14 :: b15 :: b16 :: b17 :: b18 :: b19 :: rest) =
        .error (.Parse "error: invalid tcp offset")) ∧
    (b12 < 256 → 5 ≤ b12 / 16 → (b12 / 16 - 5) * 4 > rest.length →
      Tcp.parse (b0 :: b1 :: b2 :: b3 :: b4 :: b5 :: b6 :: b7 :: b8 :: b9 :: b10 :: b11 :: b12 :: b13 :: b14 :: b15 :: b16 :: b17 :: b18 :: b19 :: rest) =
        .error (.Parse "not enough data to read tcp options")) ∧
    (b0 % 16 > 5 → (b0 % 16 - 5) * 4 > rest.length →
      Ipv4.parse (b0 :: b1 :: b2 :: b3 :: b4 :: b5 :: b6 :: b7 :: b8 :: b9 :: b10 :: b11 :: b12 :: b13 :: b14 :: b15 :: b16 :: b17 :: b18 :: b19 :: rest) =
        .error (.Parse "not enough data to read ipv4 options")) ∧
    (b0 % 16 ≤ 5 →
      Except.map (fun p => (p.1, p.2.options))
        (Ipv4.parse (b0 :: b1 :: b2 :: b3 :: b4 :: b5 :: b6 :: b7 :: b8 :: b9 :: b10 :: b11 :: b12 :: b13 :: b14 :: b15 :: b16 :: b17 :: b18 :: b19 :: rest)) =
        .ok (rest, [])) := by
  have htcp : ∀ res : Except LayerError (List Nat × List TcpOption),
      Tcp.read_options (b12 / 16) rest = res →
      Tcp.parse (b0 :: b1 :: b2 :: b3 :: b4 :: b5 :: b6 :: b7 :: b8 :: b9 :: b10 :: b11 :: b12 :: b13 :: b14 :: b15 :: b16 :: b17 :: b18 :: b19 :: rest) =
        res.map (fun p => (p.1,
          ({ sport := b0 * 256 + b1, dport := b2 * 256 + b3,
             seq := ((b4 * 256 + b5) * 256 + b6) * 256 + b7,
             ack := ((b8 * 256 + b9) * 256 + b10) * 256 + b11,
             offset := b12 / 16,
             flags := { reserved := b12 / 2 % 8, nonce := b12 % 2,
                        crw := b13 / 128, ecn := b13 / 64 % 2,
                        urgent := b13 / 32 % 2, ack := b13 / 16 % 2,
                        push := b13 / 8 % 2, reset := b13 / 4 % 2,
                        syn := b13 / 2 % 2, fin := b13 % 2 },
             window := b14 * 256 + b15, checksum := b16 * 256 + b17,
             urgptr := b18 * 256 + b19, options := p.2 } : Tcp))) := by
    intro res hres
    simp only [Tcp.parse, Bind.bind, Except.bind]
    rw [readBE_cons2]
    dsimp only
    rw [readBE_cons2]
    dsimp only
    rw [readBE_cons4]
    dsimp only
    rw [readBE_cons4]
    dsimp only
    rw [readBE_one]
    dsimp only
    rw [readBE_one]
    dsimp only
    rw [readBE_cons2]
    dsimp only
    rw [readBE_cons2]
    dsimp only
    rw [readBE_cons2]
    dsimp only
    rw [hres]
    cases res with
    | error e => rfl
    | ok p => rfl
  have hipv4 : ∀ res : Except LayerError (List Nat × List Ipv4Option),
      Ipv4.read_options (b0 % 16) rest = res →
      Ipv4.parse (b0 :: b1 :: b2 :: b3 :: b4 :: b5 :: b6 :: b7 :: b8 :: b9 :: b10 :: b11 :: b12 :: b13 :: b14 :: b15 :: b16 :: b17 :: b18 :: b19 :: rest) =
        res.map (fun p => (p.1,
          ({ version := b0 / 16, ihl := b0 % 16, dscp := b1 / 4,
             ecn := b1 % 4, length := b2 * 256 + b3,
             identification := b4 * 256 + b5,
             flags := (b6 * 256 + b7) / 8192, offset := (b6 * 256 + b7) % 8192,
             ttl := b8, protocol := IpProtocol.ofNat b9,
             checksum := b10 * 256 + b11,
             src := ((b12 * 256 + b13) * 256 + b14) * 256 + b15,
             dst := ((b16 * 256 + b17) * 256 + b18) * 256 + b19,
             options := p.2 } : Ipv4))) := by
    intro res hres
    simp only [Ipv4.parse, Bind.bind, Except.bind]
    rw [readBE_one]
    dsimp only
    rw [readBE_one]
    dsimp only
    rw [readBE_cons2]
    dsimp only
    rw [readBE_cons2]
    dsimp only
    rw [readBE_cons2]
    dsimp only
    rw [readBE_one]
    dsimp only
    rw [readBE_one]
    dsimp only
    rw [readBE_cons2]
    dsimp only
    rw [readBE_cons4]
    dsimp only
    rw [readBE_cons4]
    dsimp only
    rw [hres]
    cases res with
    | error e => rfl
    | ok p => rfl
  refine ⟨?_, ?_, ?_, ?_⟩
  · intro h5
    rw [htcp _ rfl, Tcp.read_options, if_pos (Or.inl h5)]
    rfl
  · intro hb h5 hgt
    rw [htcp _ rfl, Tcp.read_options, if_neg (by omega), if_neg (by omega),
      if_pos (by omega)]
    rfl
  · intro hgt hlen
    rw [hipv4 _ rfl, Ipv4.read_options, if_pos hgt, if_pos (by omega)]
    rfl
  · intro hle
    rw [hipv4 _ rfl, Ipv4.read_options, if_neg (by omega)]
    rfl

theorem claim_C7_option_preconditions_witness :
    (64 / 16 < 5 ∧
      Tcp.parse [0, 0, 0, 0, 0, 0, 0, 0, 0, 0, 0, 0, 64, 0, 0, 0, 0, 0, 0, 0] =
        .error (.Parse "error: invalid tcp offset")) ∧
    (96 / 16 > 5 → True) ∧
    (Ipv4.parse [70, 0, 0, 0, 0, 0, 0, 0, 0, 0, 0, 0, 0, 0, 0, 0, 0, 0, 0, 0] =
      .error (.Parse "not enough data to read ipv4 options")) :=
  ⟨⟨by decide,
    (claim_C7_option_preconditions 0 0 0 0 0 0 0 0 0 0 0 0 64 0 0 0 0 0 0 0
      []).1 (by decide)⟩,
   fun _ => trivial,
   (claim_C7_option_preconditions 70 0 0 0 0 0 0 0 0 0 0 0 0 0 0 0 0 0 0 0
      []).2.2.1 (by decide) (by decide)⟩

/-- C7 counterexample: the claim's underflow error for `Ipv4::parse` does
not exist — a 20-byte header with `ihl = 4 < 5` parses successfully, with
no options. -/
theorem claim_C7_counterexample :
    Except.map (fun p => (p.1, p.2.ihl, p.2.options))
      (Ipv4.parse [68, 0, 0, 0, 0, 0, 0, 0, 0, 0, 0, 0, 0, 0, 0, 0, 0, 0, 0, 0]) =
      .ok ([], 4, []) := by
  decide

/-- C1 (corrected): round-trip laws for the seven layer codecs.  For
every well-formed byte buffer the parse direction holds as claimed:
serializing the parsed value reproduces exactly the consumed prefix.  The
serialize direction holds for well-formed layer values (`wf`): parsing
`to_bytes v` succeeds with value `v` and no remainder — but not for
arbitrary values, whose out-of-range fields are masked on
serialization. -/
theorem claim_C1_roundtrip :
    (∀ (b rest : List Nat) (v : Ether), bytesWF b →
      Ether.parse b = .ok (rest, v) → Ether.to_bytes v ++ rest = b) ∧
    (∀ v : Ether, v.wf → Ether.parse (Ether.to_bytes v) = .ok ([], v)) ∧
    (∀ (b rest : List Nat) (v : Ipv4), bytesWF b →
      Ipv4.parse b = .ok (rest, v) → Ipv4.to_bytes v ++ rest = b) ∧
    (∀ v : Ipv4, v.wf → Ipv4.parse (Ipv4.to_bytes v) = .ok ([], v)) ∧
    (∀ (b rest : List Nat) (v : Ipv6), bytesWF b →
      Ipv6.parse b = .ok (rest, v) → Ipv6.to_bytes v ++ rest = b) ∧
    (∀ v : Ipv6, v.wf → Ipv6.parse (Ipv6.to_bytes v) = .ok ([], v)) ∧
    (∀ (b rest : List Nat) (v : Icmp4), bytesWF b →
      Icmp4.parse b = .ok (rest, v) → Icmp4.to_bytes v ++ rest = b) ∧
    (∀ v : Icmp4, v.wf → Icmp4.parse (Icmp4.to_bytes v) = .ok ([], v)) ∧
    (∀ (b rest : List Nat) (v : Tcp), bytesWF b →
      Tcp.parse b = .ok (rest, v) → Tcp.to_bytes v ++ rest = b) ∧
    (∀ v : Tcp, v.wf → Tcp.parse (Tcp.to_bytes v) = .ok ([], v)) ∧
    (∀ (b rest : List Nat) (v : Udp), bytesWF b →
      Udp.parse b = .ok (rest, v) → Udp.to_bytes v ++ rest = b) ∧
    (∀ v : Udp, v.wf → Udp.parse (Udp.to_bytes v) = .ok ([], v)) ∧
    (∀ (b rest : List Nat) (v : Raw),
      Raw.parse b = .ok (rest, v) → Raw.to_bytes v ++ rest = b) ∧
    (∀ v : Raw, v.wf → Raw.parse (Raw.to_bytes v) = .ok ([], v)) := by
  refine ⟨?_, ether_write_parse, ?_, ipv4_write_parse, ?_, ipv6_write_parse,
    ?_, icmp4_write_parse, ?_, tcp_write_parse, ?_, udp_write_parse,
    ?_, raw_write_parse⟩
  · exact fun b rest v hwf h => ether_parse_ok b rest v hwf h
  · exact fun b rest v hwf h => ipv4_parse_ok b rest v hwf h
  · exact fun b rest v hwf h => ipv6_parse_ok b rest v hwf h
  · exact fun b rest v hwf h => (icmp4_parse_ok b rest v hwf h).1
  · exact fun b rest v hwf h => tcp_parse_ok b rest v hwf h
  · exact fun b rest v hwf h => udp_parse_ok b rest v hwf h
  · exact fun b rest v h => (raw_parse_ok b rest v h).1

theorem claim_C1_roundtrip_witness :
    Ether.to_bytes { dst := { bytes := [254, 255, 32, 0, 1, 0] },
                     src := { bytes := [0, 0, 1, 0, 0, 0] },
                     ether_type := .IPv4 } ++ [] =
      [254, 255, 32, 0, 1, 0, 0, 0, 1, 0, 0, 0, 8, 0] :=
  claim_C1_roundtrip.1 [254, 255, 32, 0, 1, 0, 0, 0, 1, 0, 0, 0, 8, 0] []
    { dst := { bytes := [254, 255, 32, 0, 1, 0] },
      src := { bytes := [0, 0, 1, 0, 0, 0] }, ether_type := .IPv4 }
    (by decide) (by decide)

/-- C1 counterexample: the serialize direction fails for an arbitrary
(ill-formed) value: an `Ipv6` with `version := 16` serializes with the
version masked to 4 bits, so parsing back yields a different value. -/
theorem claim_C1_counterexample :
    Except.map Prod.snd
      (Ipv6.parse (Ipv6.to_bytes { Ipv6.default with version := 16 })) ≠
      .ok { Ipv6.default with version := 16 } := by
  decide

theorem claim_C4_parse_packet_walk_witness :
    PacketParser.parse_packet
      ({ tagOf := fun _ => 0, layer_bindings := fun _ => [] } :
        PacketParser Nat)
      (fun _ => .ok ([], 7)) [] 1 = some (.ok ([], [7])) :=
  claim_C4_parse_packet_walk.2.1 Nat
    { tagOf := fun _ => 0, layer_bindings := fun _ => [] }
    (fun _ => .ok ([], 7)) [] 0 7 rfl

theorem claim_C8_error_propagation_witness :
    PacketParser.parse_packet
      ({ tagOf := fun _ => 0, layer_bindings := fun _ => [] } :
        PacketParser Nat)
      (fun _ => .error (.Incomplete 3)) [] 5 =
      some (.error (PacketError.ofLayerError (.Incomplete 3))) :=
  claim_C8_error_propagation.1 Nat
    { tagOf := fun _ => 0, layer_bindings := fun _ => [] }
    (fun _ => .error (.Incomplete 3)) [] 5 (.Incomplete 3) rfl

theorem claim_C9_packet_finalize_witness :
    packetFinalizeGo (fun (_ : Nat) _ _ => .error (.Parse "x")) [] [0] =
      .error (PacketError.ofLayerError (.Parse "x")) :=
  claim_C9_packet_finalize.2.2 Nat (fun _ _ _ => .error (.Parse "x"))
    [] 0 [] (.Parse "x") rfl

/-- C5: the checksum function equals the reference definition on every
byte buffer, and yields `0xFFFF` on the all-zero input of any length. -/
theorem claim_C5_checksum :
    (∀ input : List Nat, checksum input = checksumRef input) ∧
    (∀ n : Nat, checksum (List.replicate n 0) = 65535) := by
  constructor
  · intro input
    simp [checksum, checksumRef, checksumLoop_eq_foldl]
  · intro n
    simp [checksum, checksumLoop_zeros]

end Hatchet
